import Mathlib

/-!
A verification development for the Excel translation pipeline
(cell classifier, batch translator, position reconciler, post-processor,
quality checker).

JavaScript strings are modelled as lists of characters (`JStr`); JS string
operations (trim, toLowerCase, includes, split) are given as executable list
functions.  JS numbers that appear as cell values are modelled as integers
(`Int`), which covers all integral spreadsheet values; `toString` is decimal
rendering.  JS object identity (`===` on objects) is modelled by tagging each
working-array entry with the index of the original input object it refers to
(`none` for freshly created copies, which are `===` to nothing else).
-/

/-- Characters treated as whitespace by the model of JS `trim` and `\s`
(ASCII approximation of the Unicode whitespace class). -/
def isWsChar (c : Char) : Bool :=
  c = ' ' ∨ c = '\t' ∨ c = '\n' ∨ c = '\r' ∨ c = '\x0b' ∨ c = '\x0c'

/-- JS strings as lists of characters. -/
abbrev JStr := List Char

/-- Model of `String.prototype.trim`. -/
def jsTrim (s : JStr) : JStr :=
  ((s.dropWhile isWsChar).reverse.dropWhile isWsChar).reverse

/-- Model of `String.prototype.toLowerCase` (ASCII approximation; the
Devanagari characters appearing in this program are unaffected by Unicode
lowercasing). -/
def lowerChar (c : Char) : Char :=
  if 'A' ≤ c ∧ c ≤ 'Z' then Char.ofNat (c.toNat + 32) else c

/-- Lowercasing of a whole string. -/
def jsLower (s : JStr) : JStr := s.map lowerChar

/-- Model of `String.prototype.includes`: the needle occurs as a contiguous
substring of the haystack. -/
def jsIncludes (hay needle : JStr) : Bool :=
  hay.tails.any (fun t => needle.isPrefixOf t)

/-- Model of `String.prototype.startsWith` restricted to what the code
needs: `s.startsWith "="`. -/
def jsStartsWith (s pre : JStr) : Bool := pre.isPrefixOf s

/-- ASCII digit test (JS `\d`). -/
def isDigitCh (c : Char) : Bool := '0' ≤ c ∧ c ≤ '9'

/-- The digit character for a value below ten (clamped at nine). -/
def digChar : Nat → Char
  | 0 => '0' | 1 => '1' | 2 => '2' | 3 => '3' | 4 => '4'
  | 5 => '5' | 6 => '6' | 7 => '7' | 8 => '8' | _ => '9'

/-- Decimal digits of a natural number, fuel-indexed so the definition is
structurally recursive (and hence kernel-reducible for concrete inputs). -/
def natDigitsAux : Nat → Nat → List Char
  | 0, _ => []
  | fuel + 1, n => if n < 10 then [digChar n] else natDigitsAux fuel (n / 10) ++ [digChar (n % 10)]

/-- Decimal digit string of a natural number. -/
def natDigits (n : Nat) : List Char := natDigitsAux (n + 1) n

/-- Model of JS `Number.prototype.toString` for integral values. -/
def intToString (i : Int) : JStr :=
  if i < 0 then '-' :: natDigits i.natAbs else natDigits i.toNat

/-- Cell values: `string | number | Date | null`.  A `Date` value carries the
string its `toString` would produce (the pipeline never inspects dates beyond
type tags and stringification). -/
inductive Value where
  | vNull : Value
  | vStr : JStr → Value
  | vNum : Int → Value
  | vDate : JStr → Value
deriving DecidableEq, Repr

/-- JS truthiness of a cell value (`null`, `""` and `0` are falsy; `Date`
objects are always truthy). -/
def truthy : Value → Bool
  | .vNull => false
  | .vStr s => s ≠ []
  | .vNum n => n ≠ 0
  | .vDate _ => true

/-- `typeof v === 'string' || typeof v === 'number'`. -/
def isStrOrNum : Value → Bool
  | .vStr _ => true
  | .vNum _ => true
  | _ => false

/-- Model of `cell.v.toString()`. -/
def valueToString : Value → JStr
  | .vNull => ['n', 'u', 'l', 'l']
  | .vStr s => s
  | .vNum n => intToString n
  | .vDate s => s

/-- Model of `===` on cell values: structural on primitives, never true
between two distinct `Date` objects (reference comparison; the pipeline never
compares a date value with itself through two aliases). -/
def valueEq : Value → Value → Bool
  | .vNull, .vNull => true
  | .vStr a, .vStr b => a = b
  | .vNum a, .vNum b => a = b
  | _, _ => false

/-- The cell type tags `'s' | 'n' | 'd' | 'f' | 'h' | 'b'`. -/
inductive CellType where
  | s | n | d | f | h | b
deriving DecidableEq, Repr

/-- The `Cell` record.  `row` and `col` are `Option` because the TypeScript
`Cell` type declares no such fields: they are `undefined` (`none`) unless the
reconciliation step dynamically attaches them to a copy. -/
structure Cell where
  v : Value
  t : CellType
  translated : Option JStr := none
  skip : Bool := false
  row : Option Nat := none
  col : Option Nat := none
deriving DecidableEq, Repr

/-- A glossary term. -/
structure GlossaryTerm where
  term : JStr
  keepAs : JStr := []
deriving DecidableEq, Repr

/-- Model of the email regex `^[^\s@]+@[^\s@]+\.[^\s@]+$`: exactly one `@`,
no whitespace anywhere, a non-empty local part, and after the `@` a dot with
non-empty text on both sides. -/
def isEmail (s : JStr) : Bool :=
  s.count '@' = 1 ∧
  s.all (fun c => ¬ isWsChar c) ∧
  (s.takeWhile (· ≠ '@')) ≠ [] ∧
  (((s.dropWhile (· ≠ '@')).drop 1).drop 1).dropLast.contains '.'

/-- Modelled from the spec: the value parses as a well-formed URL
(`new URL(value)` succeeds).  The WHATWG parser accepts only absolute URLs,
which must begin with a scheme — an ASCII letter followed by letters, digits,
`+`, `-` or `.` — terminated by a colon.  Strings without a colon always
throw; this model checks the scheme requirement. -/
def isUrl (s : JStr) : Bool :=
  let scheme := s.takeWhile (· ≠ ':')
  scheme.length < s.length ∧
  scheme ≠ [] ∧
  (scheme.headD ' ').isAlpha ∧
  scheme.all (fun c => c.isAlpha ∨ c.isDigit ∨ c = '+' ∨ c = '-' ∨ c = '.')

/-- The code-shape test `/^[A-Z\-_]+$/.test(value) && value.length <= 10`. -/
def isCodeShape (s : JStr) : Bool :=
  s ≠ [] ∧ s.all (fun c => ('A' ≤ c ∧ c ≤ 'Z') ∨ c = '-' ∨ c = '_') ∧ s.length ≤ 10

/-- The cell classifier `shouldSkipCell` from the Excel utility module:
empty is skipped, formulas and dates are skipped by type tag, emails, URLs,
glossary-containing values and short all-caps codes are skipped, everything
else (numbers included) is eligible. -/
def shouldSkipCell (cell : Cell) (glossary : List GlossaryTerm) : Bool :=
  if ¬ truthy cell.v then true
  else
    let value := jsTrim (valueToString cell.v)
    if value = [] then true
    else if cell.t = .f then true
    else if cell.t = .d then true
    else if isEmail value then true
    else if isUrl value then true
    else if glossary.any (fun term => jsIncludes (jsLower value) (jsLower term.term)) then true
    else if isCodeShape value then true
    else false

/-- Split a string at newline characters (JS `split('\n')`). -/
def splitOnNl : JStr → List JStr
  | [] => [[]]
  | c :: rest =>
    if c = '\n' then [] :: splitOnNl rest
    else
      match splitOnNl rest with
      | [] => [[c]]
      | l :: ls => (c :: l) :: ls

/-- Strip a leading Arabic ordinal `^\d+\.\s*` from a line (the
`replace` in the response parser); lines without such a prefix are
returned unchanged. -/
def stripArabicOrdinal (l : JStr) : JStr :=
  let ds := l.takeWhile isDigitCh
  if ds = [] then l
  else
    match l.drop ds.length with
    | '.' :: rest => rest.dropWhile isWsChar
    | _ => l

/-- The response parser `parseTranslationResponse`: split into lines, trim
each, drop empty lines, strip ordinal prefixes, drop lines that became empty,
truncate to the expected count and pad with empty strings. -/
def parseTranslationResponse (response : JStr) (expectedCount : Nat) : List JStr :=
  let lines := ((splitOnNl response).map jsTrim).filter (· ≠ [])
  let translations := ((lines.map stripArabicOrdinal).filter (· ≠ [])).take expectedCount
  translations ++ List.replicate (expectedCount - translations.length) []

/-- The eight canonical column-header labels. -/
def columnHeaders : List JStr :=
  ["Question".data, "Option1".data, "Option2".data, "Option3".data,
   "Option4".data, "Correct ans".data, "Answer".data, "Explanation".data]

/-- The canonical Hindi mapping for each column header. -/
def headerMappings (h : JStr) : Option JStr :=
  if h = "Question".data then some "प्रश्न".data
  else if h = "Option1".data then some "विकल्प 1".data
  else if h = "Option2".data then some "विकल्प 2".data
  else if h = "Option3".data then some "विकल्प 3".data
  else if h = "Option4".data then some "विकल्प 4".data
  else if h = "Correct ans".data then some "सही उत्तर".data
  else if h = "Answer".data then some "उत्तर".data
  else if h = "Explanation".data then some "व्याख्या".data
  else none

/-- Devanagari or Arabic digit (the class `[०-९0-9]`). -/
def isDevOrArabicDigit (c : Char) : Bool :=
  isDigitCh c ∨ ('०' ≤ c ∧ c ≤ '९')

/-- Strip a leading `^[०-९0-9]+\.\s*` serial-number prefix. -/
def stripDevOrdinal (l : JStr) : JStr :=
  let ds := l.takeWhile isDevOrArabicDigit
  if ds = [] then l
  else
    match l.drop ds.length with
    | '.' :: rest => rest.dropWhile isWsChar
    | _ => l

/-- The formal-to-colloquial replacement table of the post-processor, in
source order. -/
def formalWordReplacements : List (JStr × JStr) :=
  [("औपचारिक".data, "ज़रूरी".data),
   ("प्रस्ताव".data, "योजना".data),
   ("स्पष्टता".data, "साफ़ समझ".data),
   ("प्रशिक्षण".data, "सीखने की पहल".data),
   ("प्रक्रिया".data, "तरीका".data),
   ("संदर्भ".data, "साथ".data),
   ("विश्लेषण".data, "जांच".data),
   ("सुलभ".data, "आसान".data),
   ("स्थापित".data, "मज़बूत करना".data),
   ("सहभागिता".data, "भागीदारी".data),
   ("कार्यान्वयन".data, "लागू करना".data),
   ("परिणाम".data, "नतीजा".data),
   ("उद्देश्य".data, "लक्ष्य".data),
   ("प्राप्ति".data, "हासिल करना".data),
   ("व्यवस्था".data, "इंतज़ाम".data),
   ("प्रबंधन".data, "संचालन".data),
   ("विकास".data, "बढ़ावा".data),
   ("सुधार".data, "बेहतर बनाना".data),
   ("निरीक्षण".data, "जांच".data),
   ("परीक्षण".data, "टेस्ट".data)]

/-- Non-overlapping left-to-right global replacement
(`replace(new RegExp(word, 'g'), alt)` for a literal pattern), fuel-indexed
for structural recursion; each step consumes at least one character, so the
string length is sufficient fuel. -/
def replaceAllAux (pat rep : JStr) : Nat → JStr → JStr
  | 0, s => s
  | _ + 1, [] => []
  | fuel + 1, c :: rest =>
    if pat ≠ [] ∧ pat.isPrefixOf (c :: rest) then
      rep ++ replaceAllAux pat rep fuel ((c :: rest).drop pat.length)
    else
      c :: replaceAllAux pat rep fuel rest

/-- Global replacement of a literal pattern. -/
def replaceAll (pat rep s : JStr) : JStr := replaceAllAux pat rep s.length s

/-- The non-header branch of the post-processor: replace every formal word
that occurs by its colloquial alternative, in table order. -/
def applyFormalReplacements (t : JStr) : JStr :=
  formalWordReplacements.foldl
    (fun acc p => if jsIncludes acc p.1 then replaceAll p.1 p.2 acc else acc) t

/-- The per-entry body of the post-processor's map callback: for a cell
whose original text (trimmed) is a canonical column header, strip any
serial-number prefix and force the canonical Hindi label; for other cells
apply the formal-to-colloquial replacements. -/
def postProcessOne (translation originalText : JStr) : JStr :=
  if columnHeaders.contains (jsTrim originalText) then
    let cleaned := stripDevOrdinal translation
    match headerMappings (jsTrim originalText) with
    | some expected => if cleaned ≠ expected then expected else cleaned
    | none => cleaned
  else applyFormalReplacements translation

/-- The post-processor `postProcessTranslations`.  (In the program this
function is only applied to lists of equal length, so the index into
`originalTexts` is always in bounds.) -/
def postProcessTranslations (translations originalTexts : List JStr) : List JStr :=
  translations.enum.map (fun p => postProcessOne p.2 (originalTexts.getD p.1 []))

/-- A working-array entry of `translateCells`: the cell value together with
the object identity it carries (`some i` when the entry is still the `i`-th
original input object, `none` for a fresh copy created by the loop). -/
structure WCell where
  ref : Option Nat
  cell : Cell
deriving DecidableEq, Repr

/-- `===` on the dynamically attached `row`/`col` number fields
(`undefined === undefined` is true). -/
def optNatEq : Option Nat → Option Nat → Bool
  | none, none => true
  | some a, some b => a = b
  | _, _ => false

/-- `===` on object references: true only when both sides are the same
original input object. -/
def refEq : Option Nat → Option Nat → Bool
  | some i, some j => i = j
  | _, _ => false

/-- The `findIndex` predicate of the update loop:
`cell === batchCell || (cell.v === batchCell.v && cell.row === batchCell.row
&& cell.col === batchCell.col)`. -/
def cellMatches (slot batchCell : WCell) : Bool :=
  refEq slot.ref batchCell.ref ∨
  (valueEq slot.cell.v batchCell.cell.v ∧
   optNatEq slot.cell.row batchCell.cell.row ∧
   optNatEq slot.cell.col batchCell.cell.col)

/-- The eligibility filter of `translateCells`:
`cell.v && (typeof 'string' || 'number') && !cell.skip`. -/
def eligibleCell (c : Cell) : Bool := truthy c.v ∧ isStrOrNum c.v ∧ ¬ c.skip

/-- `translation && translation.trim() ? translation : original`. -/
def finalTranslationText (translation orig : JStr) : JStr :=
  if translation ≠ [] ∧ jsTrim translation ≠ [] then translation else orig

/-- The body of the `batch.forEach` callback: for a batch position with a
parsed translation, find the first matching slot and overwrite it with a copy
of the batch cell carrying the final translation. -/
def applyOne (translations : List JStr) (arr : List WCell) (p : Nat × WCell) : List WCell :=
  if p.1 < translations.length then
    let translation := translations.getD p.1 []
    let finalTranslation := finalTranslationText translation (valueToString p.2.cell.v)
    let cellIndex := arr.findIdx (fun slot => cellMatches slot p.2)
    if cellIndex < arr.length then
      arr.set cellIndex ⟨none, { p.2.cell with translated := some finalTranslation }⟩
    else arr
  else arr

/-- The per-batch update loop (`batch.forEach` with `batchIndex`). -/
def applyBatch (batch : List WCell) (translations : List JStr) (arr : List WCell) : List WCell :=
  batch.enum.foldl (applyOne translations) arr

/-- The external text-generation backend: given a batch index and the batch's
texts it returns the raw response blob, or an error for a failed request. -/
def Oracle := Nat → List JStr → Except Unit JStr

/-- `translateBatch`: call the backend, then parse and post-process the
response (errors propagate to the caller's catch). -/
def translateBatch (oracle : Oracle) (bIdx : Nat) (texts : List JStr) : Except Unit (List JStr) :=
  match oracle bIdx texts with
  | .error e => .error e
  | .ok raw => .ok (postProcessTranslations (parseTranslationResponse raw texts.length) texts)

/-- The batch size constant. -/
def batchSize : Nat := 50

/-- Partition into consecutive chunks of the given positive size,
fuel-indexed for structural recursion. -/
def chunksAux (size : Nat) : Nat → List α → List (List α)
  | _, [] => []
  | 0, xs => [xs]
  | fuel + 1, xs => xs.take size :: chunksAux size fuel (xs.drop size)

/-- The batching `for (let i = 0; i < n; i += batchSize)` as a chunk list. -/
def chunks50 (l : List α) : List (List α) := chunksAux batchSize l.length l

/-- The batch loop of `translateCells`: each batch is translated and applied;
a failed batch is caught and skipped (`catch { continue with next batch }`). -/
def runBatches (oracle : Oracle) : Nat → List (List WCell) → List WCell → List WCell
  | _, [], arr => arr
  | bIdx, batch :: rest, arr =>
    let texts := batch.map (fun w => valueToString w.cell.v)
    match translateBatch oracle bIdx texts with
    | .error _ => runBatches oracle (bIdx + 1) rest arr
    | .ok translations => runBatches oracle (bIdx + 1) rest (applyBatch batch translations arr)

/-- The input list with each cell tagged by its object identity. -/
def indexedCells (cells : List Cell) : List WCell :=
  cells.enum.map (fun p => WCell.mk (some p.1) p.2)

/-- The filtered eligible worklist of `translateCells`. -/
def cellsToTranslateOf (cells : List Cell) : List WCell :=
  (indexedCells cells).filter (fun w => eligibleCell w.cell)

/-- `translateCells`: filter the eligible cells, process them in batches of
fifty against the backend, and return the updated copy of the input list. -/
def translateCells (cells : List Cell) (oracle : Oracle) : List WCell :=
  runBatches oracle 0 (chunks50 (cellsToTranslateOf cells)) (indexedCells cells)

/-- The value a cell contributes to the exported worksheet:
`cell.translated || cell.v` (an empty translated string is falsy and falls
back to the original value). -/
def effectiveExport (c : Cell) : Value :=
  match c.translated with
  | some t => if t = [] then c.v else .vStr t
  | none => c.v

/-- A submitted `{ cell, rowIndex, colIndex }` triple of the sheet pipeline. -/
structure SubmittedCell where
  cell : Cell
  rowIndex : Nat
  colIndex : Nat
deriving DecidableEq, Repr

/-- The skip-marking pass of `handleTranslate`: cells in protected columns
and cells the classifier rejects are annotated `skip: true`; all other cells
pass through as-is.  A column index beyond the label list yields `undefined`,
which is never a member of `protectedColumns`. -/
def markSkips (columns protectedColumns : List JStr) (glossary : List GlossaryTerm)
    (rows : List (List Cell)) : List (List Cell) :=
  rows.map (fun row =>
    row.enum.map (fun p =>
      let prot :=
        match columns.get? p.1 with
        | some name => protectedColumns.contains name
        | none => false
      if prot then { p.2 with skip := true }
      else if shouldSkipCell p.2 glossary then { p.2 with skip := true }
      else p.2))

/-- The collection pass of `handleTranslate`: every cell with a truthy
string-or-number value not marked skip is submitted together with its
`(rowIndex, colIndex)` position. -/
def collectCells (updatedRows : List (List Cell)) : List SubmittedCell :=
  (updatedRows.enum.map (fun rp =>
    rp.2.enum.filterMap (fun cp =>
      if eligibleCell cp.2 then some ⟨cp.2, rp.1, cp.1⟩ else none))).flatten

/-- Write a cell into a grid position (`finalRows[r][c] = cell`; out-of-range
writes cannot occur for collected positions). -/
def setCellAt (g : List (List Cell)) (r c : Nat) (cell : Cell) : List (List Cell) :=
  match g.get? r with
  | some row => g.set r (row.set c cell)
  | none => g

/-- The loop body of the reconciliation pass for one submitted triple: first
look for a translated cell matching on value and on the (never populated)
`row`/`col` fields; failing that, fall back to the first translated cell with
an equal value, re-positioned to the triple's position; `none` when neither
lookup succeeds (no write is performed). -/
def reconcileOne (translatedCells : List Cell) (item : SubmittedCell) : Option Cell :=
  match translatedCells.find? (fun c =>
    valueEq c.v item.cell.v ∧ optNatEq c.row (some item.rowIndex) ∧
    optNatEq c.col (some item.colIndex)) with
  | some tc => some tc
  | none =>
    match translatedCells.find? (fun c => valueEq c.v item.cell.v) with
    | some alt => some { alt with row := some item.rowIndex, col := some item.colIndex }
    | none => none

/-- The reconciliation pass of `handleTranslate` (the loop over the submitted
triples, writing each located translated cell back at the triple's grid
position). -/
def reconcile (items : List SubmittedCell) (translatedCells : List Cell)
    (finalRows : List (List Cell)) : List (List Cell) :=
  items.foldl
    (fun rows item =>
      match reconcileOne translatedCells item with
      | some cellW => setCellAt rows item.rowIndex item.colIndex cellW
      | none => rows)
    finalRows

/-- The per-sheet translation pipeline of `handleTranslate`: mark skips,
collect the submitted triples, translate the flat cell list, and reconcile
the results back into the grid (when nothing is submitted the marked grid is
returned unchanged, as `translateCells` and `reconcile` are no-ops on empty
input). -/
def translateSheet (rows : List (List Cell)) (columns protectedColumns : List JStr)
    (glossary : List GlossaryTerm) (oracle : Oracle) : List (List Cell) :=
  let updatedRows := markSkips columns protectedColumns glossary rows
  let items := collectCells updatedRows
  let translatedCells := (translateCells (items.map (·.cell)) oracle).map (·.cell)
  reconcile items translatedCells updatedRows

/-- Issue kinds of the quality checker.  The source tag `'structure'` is a
Lean keyword, so it is rendered `structural` here. -/
inductive IssueType where
  | formalWord | literalTranslation | grammar | tone | structural
deriving DecidableEq, Repr

/-- Issue severities. -/
inductive Severity where
  | low | medium | high
deriving DecidableEq, Repr

/-- A quality issue. -/
structure QualityIssue where
  type : IssueType
  severity : Severity
  message : JStr
  suggestion : Option JStr := none
  originalText : JStr
  translatedText : JStr
deriving DecidableEq, Repr

/-- The summary block of a quality report. -/
structure QualitySummary where
  totalIssues : Nat
  criticalIssues : Nat
  formalWordIssues : Nat
  literalTranslationIssues : Nat
  grammarIssues : Nat
deriving DecidableEq, Repr

/-- A quality report. -/
structure QualityReport where
  issues : List QualityIssue
  score : Int
  summary : QualitySummary
deriving DecidableEq, Repr

/-- The context parameter of the quality checker. -/
inductive QContext where
  | marketing | technical
deriving DecidableEq, Repr

/-- The language parameter of the quality checker. -/
inductive QLang where
  | hi | mr
deriving DecidableEq, Repr

/-- The Hindi formal-word table of the quality checker, in source order. -/
def HINDI_FORMAL_WORDS_MAP : List (JStr × List JStr) :=
  [("औपचारिक".data, ["ज़रूरी".data, "सरकारी".data]),
   ("प्रस्ताव".data, ["योजना".data]),
   ("स्पष्टता".data, ["साफ़ समझ".data]),
   ("प्रशिक्षण".data, ["सीखने की पहल".data]),
   ("प्रक्रिया".data, ["तरीका".data]),
   ("संदर्भ".data, ["साथ".data, "स्थिति के अनुसार".data]),
   ("विश्लेषण".data, ["जांच".data, "समझ".data]),
   ("सुलभ".data, ["आसान".data, "सरल".data]),
   ("स्थापित".data, ["मज़बूत करना".data, "बनाना".data]),
   ("सहभागिता".data, ["भागीदारी".data, "हिस्सा लेना".data]),
   ("कार्यान्वयन".data, ["लागू करना".data, "शुरू करना".data]),
   ("परिणाम".data, ["नतीजा".data, "फल".data]),
   ("उद्देश्य".data, ["लक्ष्य".data, "मकसद".data]),
   ("प्राप्ति".data, ["हासिल करना".data, "पाना".data]),
   ("व्यवस्था".data, ["इंतज़ाम".data, "बंदोबस्त".data]),
   ("प्रबंधन".data, ["संचालन".data, "प्रबंध".data]),
   ("विकास".data, ["बढ़ावा".data, "उन्नति".data]),
   ("सुधार".data, ["बेहतर बनाना".data, "सुधारना".data]),
   ("निरीक्षण".data, ["जांच".data, "देखना".data]),
   ("परीक्षण".data, ["टेस्ट".data, "जांच".data])]

/-- The Marathi formal-word table, in source order. -/
def MARATHI_FORMAL_WORDS_MAP : List (JStr × List JStr) :=
  [("औपचारिक".data, ["आवश्यक".data, "सरकारी".data]),
   ("प्रस्ताव".data, ["योजना".data]),
   ("स्पष्टता".data, ["स्पष्ट समज".data]),
   ("प्रशिक्षण".data, ["शिकण्याची सुरुवात".data]),
   ("प्रक्रिया".data, ["पद्धत".data]),
   ("संदर्भ".data, ["स्थिती".data, "परिस्थितीनुसार".data]),
   ("विश्लेषण".data, ["तपासणी".data, "समज".data]),
   ("सुलभ".data, ["सोपे".data, "सरळ".data]),
   ("स्थापित".data, ["मजबूत करणे".data, "तयार करणे".data]),
   ("सहभागिता".data, ["सहभाग".data, "भाग घेणे".data])]

/-- The literal-translation (calque) table, in source order. -/
def LITERAL_TRANSLATIONS : List (JStr × JStr) :=
  [("समय प्रबंधन".data, "टाइम मैनेजमेंट".data),
   ("कौशल विकास".data, "स्किल डेवलपमेंट".data),
   ("ज्ञान प्रबंधन".data, "नॉलेज मैनेजमेंट".data),
   ("गुणवत्ता आश्वासन".data, "क्वालिटी एश्योरेंस".data),
   ("प्रदर्शन मूल्यांकन".data, "परफॉरमेंस इवैल्यूएशन".data)]

/-- The header-shape test `/^(Question|Option\d+|Correct ans|Answer|Explanation)$/i`
used to downgrade formal-word severity. -/
def isHeaderLikeText (text : JStr) : Bool :=
  let l := jsLower text
  l = jsLower "Question".data ∨ l = jsLower "Correct ans".data ∨
  l = jsLower "Answer".data ∨ l = jsLower "Explanation".data ∨
  ((jsLower "Option".data).isPrefixOf l ∧ l.drop 6 ≠ [] ∧ (l.drop 6).all isDigitCh)

/-- The formal-word scan: one `formal_word` issue per table entry occurring
in the translated text, with severity `low` for header-shaped texts and
`medium` otherwise. -/
def checkFormalWords (text : JStr) (language : QLang) : List QualityIssue :=
  let formalWordsMap := if language = .hi then HINDI_FORMAL_WORDS_MAP else MARATHI_FORMAL_WORDS_MAP
  formalWordsMap.foldl
    (fun issues p =>
      if jsIncludes text p.1 then
        issues ++ [{ type := .formalWord,
                     severity := if isHeaderLikeText text then .low else .medium,
                     message := "Formal word \"".data ++ p.1 ++
                       "\" detected. Consider using more colloquial alternatives.".data,
                     suggestion := some ("Replace \"".data ++ p.1 ++ "\" with: ".data ++
                       List.intercalate ", ".data p.2),
                     originalText := [],
                     translatedText := text }]
      else issues)
    []

/-- The literal-translation scan: one high-severity issue per calque phrase
occurring in the translated text. -/
def checkLiteralTranslations (text : JStr) : List QualityIssue :=
  LITERAL_TRANSLATIONS.foldl
    (fun issues p =>
      if jsIncludes text p.1 then
        issues ++ [{ type := .literalTranslation,
                     severity := .high,
                     message := "Literal translation \"".data ++ p.1 ++
                       "\" detected. This may not sound natural in Hindi.".data,
                     suggestion := some ("Consider using a more natural Hindi expression instead of \"".data ++
                       p.1 ++ "\"".data),
                     originalText := [],
                     translatedText := text }]
      else issues)
    []

/-- The honorific pronoun आप. -/
def aapWord : JStr := "आप".data

/-- The informal pronoun तुम. -/
def tumWord : JStr := "तुम".data

/-- The global scan of `text.match(/(आप|तुम)/g)`: all non-overlapping
occurrences, left to right (fuel-indexed; the text length is sufficient fuel
because every step consumes at least one character). -/
def scanPronounsAux : Nat → JStr → List JStr
  | 0, _ => []
  | _ + 1, [] => []
  | fuel + 1, c :: rest =>
    if aapWord.isPrefixOf (c :: rest) then
      aapWord :: scanPronounsAux fuel ((c :: rest).drop aapWord.length)
    else if tumWord.isPrefixOf (c :: rest) then
      tumWord :: scanPronounsAux fuel ((c :: rest).drop tumWord.length)
    else scanPronounsAux fuel rest

/-- All pronoun matches of the mixed-pronoun pattern. -/
def scanPronouns (s : JStr) : List JStr := scanPronounsAux s.length s

/-- First alternation group of the gender-mismatch regex, in source order. -/
def genderNouns : List JStr :=
  ["लड़का".data, "लड़की".data, "छात्र".data, "छात्रा".data]

/-- Second alternation group of the gender-mismatch regex, in source order. -/
def genderVerbs : List JStr :=
  ["करता".data, "करती".data]

/-- JS line terminators, which `.` never matches. -/
def isLineTerm (c : Char) : Bool :=
  c = '\n' ∨ c = '\r' ∨ c = Char.ofNat 0x2028 ∨ c = Char.ofNat 0x2029

/-- Whether the span `[j, k)` of the text contains no line terminator (so
`.*` may cover it). -/
def noLineTermSpan (s : JStr) (j k : Nat) : Bool :=
  ((s.drop j).take (k - j)).all (fun c => ¬ isLineTerm c)

/-- Try the verb group at a fixed position, alternatives in source order;
returns the end index of the whole match. -/
def tryGenderVerbAt (s : JStr) (k : Nat) : Option Nat :=
  genderVerbs.findSome? (fun w => if w.isPrefixOf (s.drop k) then some (k + w.length) else none)

/-- Greedy `.*` continuation: try verb-group start positions from the
largest down (the regex backtracks from the longest dot-span). -/
def findGenderVerbFrom (s : JStr) (j : Nat) : Option Nat :=
  ((List.range (s.length + 1 - j)).reverse.map (j + ·)).findSome? (fun k =>
    if noLineTermSpan s j k then tryGenderVerbAt s k else none)

/-- Try a full gender-mismatch match starting exactly at position `i`. -/
def tryGenderAt (s : JStr) (i : Nat) : Option Nat :=
  genderNouns.findSome? (fun w =>
    if w.isPrefixOf (s.drop i) then findGenderVerbFrom s (i + w.length) else none)

/-- The regex search for `/(लड़का|लड़की|छात्र|छात्रा).*(करता|करती)/` from a
given start position: leftmost match wins; returns its end index. -/
def genderExecFrom (s : JStr) (start : Nat) : Option Nat :=
  (List.range (s.length + 1 - start)).findSome? (fun d => tryGenderAt s (start + d))

/-- `GRAMMAR_PATTERNS.genderMismatch.test(text)` for a `/g` regex: the search
starts at the regex object's persistent `lastIndex`; on success `lastIndex`
advances to the match end, on failure (or an out-of-range `lastIndex`) it
resets to zero. -/
def genderMismatchTest (s : JStr) (lastIndex : Nat) : Bool × Nat :=
  if s.length < lastIndex then (false, 0)
  else
    match genderExecFrom s lastIndex with
    | some e => (true, e)
    | none => (false, 0)

/-- The grammar scan: a medium issue when more than one distinct pronoun
occurs, plus a high issue when the (stateful) gender-mismatch test fires.
The second component is the regex object's `lastIndex` after the call. -/
def checkGrammar (text : JStr) (gmLast : Nat) : List QualityIssue × Nat :=
  let pronounMatches := scanPronouns text
  let pronounIssues :=
    if pronounMatches.length > 1 ∧ pronounMatches.eraseDups.length > 1 then
      [{ type := .grammar,
         severity := .medium,
         message := "Mixed pronoun usage detected. Maintain consistent honorific usage.".data,
         suggestion := some "Choose either आप (formal) or तुम (informal) and use consistently throughout.".data,
         originalText := [],
         translatedText := text }]
    else []
  let gm := genderMismatchTest text gmLast
  let genderIssues :=
    if gm.1 then
      [{ type := .grammar,
         severity := .high,
         message := "Potential gender agreement issue detected.".data,
         suggestion := some "Ensure proper gender agreement between nouns and verbs.".data,
         originalText := [],
         translatedText := text }]
    else []
  (pronounIssues ++ genderIssues, gm.2)

/-- The overly-formal indicator phrases of the tone scan. -/
def toneIndicators : List JStr :=
  ["कृपया ध्यान दें".data, "सावधानीपूर्वक".data, "अत्यंत महत्वपूर्ण".data,
   "निम्नलिखित बिंदुओं पर ध्यान दें".data]

/-- The tone scan: in technical context, at most one low-severity issue when
any indicator phrase occurs (the loop breaks after the first hit). -/
def checkTone (text : JStr) (context : QContext) : List QualityIssue :=
  if context = .technical then
    if toneIndicators.any (fun ind => jsIncludes text ind) then
      [{ type := .tone,
         severity := .low,
         message := "Overly formal tone detected for technical context.".data,
         suggestion := some "Use more accessible, clear language.".data,
         originalText := [],
         translatedText := text }]
    else []
  else []

/-- `/^\d+\.\s*/.test(s)`: digits followed by a dot at the start. -/
def hasOrdinalStart (s : JStr) : Bool :=
  let ds := s.takeWhile isDigitCh
  match ds, s.drop ds.length with
  | _ :: _, '.' :: _ => true
  | _, _ => false

/-- The column-header table of the structure scan (a second copy of the
canonical mapping lives in the quality checker module). -/
def columnMappingsQC : List (JStr × JStr) :=
  [("Question".data, "प्रश्न".data),
   ("Option1".data, "विकल्प 1".data),
   ("Option2".data, "विकल्प 2".data),
   ("Option3".data, "विकल्प 3".data),
   ("Option4".data, "विकल्प 4".data),
   ("Correct ans".data, "सही उत्तर".data),
   ("Answer".data, "उत्तर".data),
   ("Explanation".data, "व्याख्या".data)]

/-- The structure scan: a low issue when the original starts with an ordinal
prefix but the translation does not, and a high issue per header whose
cleaned translation differs from the canonical mapping. -/
def checkStructure (originalText translatedText : JStr) : List QualityIssue :=
  let serialIssues :=
    if hasOrdinalStart originalText ∧ ¬ hasOrdinalStart translatedText then
      [{ type := .structural,
         severity := .low,
         message := "Serial number was stripped from translation.".data,
         suggestion := some "Ensure consistent formatting with original text.".data,
         originalText := originalText,
         translatedText := translatedText }]
    else []
  let headerIssues := columnMappingsQC.foldl
    (fun issues p =>
      if jsTrim originalText = p.1 then
        let cleanTranslatedText := jsTrim (stripDevOrdinal translatedText)
        if cleanTranslatedText ≠ p.2 then
          issues ++ [{ type := .structural,
                       severity := .high,
                       message := "Inconsistent column header translation.".data,
                       suggestion := some "Use the canonical header mapping. Remove serial numbers from column headers.".data,
                       originalText := originalText,
                       translatedText := translatedText }]
        else issues
      else issues)
    []
  serialIssues ++ headerIssues

/-- The penalty of an issue by severity. -/
def severityPenalty : Severity → Nat
  | .high => 15
  | .medium => 8
  | .low => 3

/-- `calculateQualityScore`: 100 for no issues; otherwise subtract the total
penalty divided by the length factor `min(len/100, 2)`, round, and clamp at
zero.  For `textLength = 0` the JS division yields `Infinity` and the clamped
score is 0; rational arithmetic models the floating-point computation, whose
operands stay well within exactness for the table's penalty values. -/
def calculateQualityScore (issues : List QualityIssue) (textLength : Nat) : Int :=
  if issues = [] then 100
  else if textLength = 0 then 0
  else
    let totalPenalty : Nat := (issues.map (fun i => severityPenalty i.severity)).sum
    let lengthFactor : ℚ := min ((textLength : ℚ) / 100) 2
    max 0 (round ((100 : ℚ) - (totalPenalty : ℚ) / lengthFactor))

/-- `checkTranslationQuality` (the language-aware variant): run the five
scans, score, and summarise.  The extra `gmLast` argument and result thread
the persistent `lastIndex` of the module-level `/g` gender-mismatch regex,
which survives between calls. -/
def checkTranslationQuality (gmLast : Nat) (originalText translatedText : JStr)
    (context : QContext) (language : QLang) : QualityReport × Nat :=
  let formalWordIssues := checkFormalWords translatedText language
  let literalIssues := checkLiteralTranslations translatedText
  let grammarRes := checkGrammar translatedText gmLast
  let toneIssues := checkTone translatedText context
  let structureIssues := checkStructure originalText translatedText
  let issues := formalWordIssues ++ literalIssues ++ grammarRes.1 ++ toneIssues ++ structureIssues
  let score := calculateQualityScore issues originalText.length
  let summary : QualitySummary :=
    { totalIssues := issues.length,
      criticalIssues := (issues.filter (fun i => i.severity = .high)).length,
      formalWordIssues := formalWordIssues.length,
      literalTranslationIssues := literalIssues.length,
      grammarIssues := grammarRes.1.length }
  ({ issues := issues, score := score, summary := summary }, grammarRes.2)

/-- The response-parsing procedure exactly as the specification words it:
split into non-empty trimmed lines, strip a leading `"<digits>. "` ordinal
prefix from each line, take the first N cleaned lines, pad with empty
strings.  (Stated for comparison with the implementation; note the absence
of a second empty-line filter and the mandatory space after the dot.) -/
def stripClaimOrdinal (l : JStr) : JStr :=
  let ds := l.takeWhile isDigitCh
  if ds = [] then l
  else
    match l.drop ds.length with
    | '.' :: ' ' :: rest => rest
    | _ => l

/-- The claim's parsing procedure (see `stripClaimOrdinal`). -/
def parseTranslationResponseClaim (response : JStr) (expectedCount : Nat) : List JStr :=
  let lines := ((splitOnNl response).map jsTrim).filter (· ≠ [])
  let cleaned := (lines.map stripClaimOrdinal).take expectedCount
  cleaned ++ List.replicate (expectedCount - cleaned.length) []

/-- A cleaned response line as the amended specification words it: trim,
drop if empty, strip a leading `"<digits>."` prefix together with any
following whitespace, and drop the line if it became empty. -/
def cleanResponseLine (l : JStr) : Option JStr :=
  let t := jsTrim l
  if t = [] then none
  else
    let c := stripArabicOrdinal t
    if c = [] then none else some c

/-- The amended parsing specification: keep the cleaned lines, take the
first N, pad with empty strings to exactly N. -/
def parseTranslationResponseSpec (response : JStr) (expectedCount : Nat) : List JStr :=
  let cleaned := ((splitOnNl response).filterMap cleanResponseLine).take expectedCount
  cleaned ++ List.replicate (expectedCount - cleaned.length) []

/-- An oracle equal to the given one except that the batch with the given
index fails (a network/backend error for exactly that request). -/
def failAt (k : Nat) (oracle : Oracle) : Oracle :=
  fun b texts => if b = k then .error () else oracle b texts

/-- The texts a batch sends to the backend. -/
def batchTexts (batch : List WCell) : List JStr :=
  batch.map (fun w => valueToString w.cell.v)

/-- The final translation the update loop computes for batch position `bi`
of a successfully translated batch (`none` when the batch's request
failed). -/
def writtenTranslated (oracle : Oracle) (bIdx : Nat) (batch : List WCell) (bi : Nat) (w : WCell) :
    Option JStr :=
  match translateBatch oracle bIdx (batchTexts batch) with
  | .error _ => none
  | .ok translations =>
    some (finalTranslationText (translations.getD bi []) (valueToString w.cell.v))

/-- The write the batch loop performs for the original input object `j`, if
any: search the batches in order for the entry referring to `j` and, when its
batch succeeded, the re-written cell carrying its translation. -/
def plannedWrite (oracle : Oracle) : Nat → List (List WCell) → Nat → Option Cell
  | _, [], _ => none
  | bIdx, batch :: rest, j =>
    match batch.enum.find? (fun p => p.2.ref = some j) with
    | some p =>
      match writtenTranslated oracle bIdx batch p.1 p.2 with
      | some ft => some { p.2.cell with translated := some ft }
      | none => none
    | none => plannedWrite oracle (bIdx + 1) rest j

/-- The cell the update loop leaves at slot `j`, mirroring the translated
value a header-original with an empty parsed line is forced to
(`emptyLineResult` is the canonical mapping for header originals and the
original text otherwise). -/
def emptyLineResult (orig : JStr) : JStr :=
  match headerMappings (jsTrim orig) with
  | some m => m
  | none => orig

/-- Access a grid cell (`g[r][c]`). -/
def gridGet (g : List (List Cell)) (r c : Nat) : Option Cell :=
  match g.get? r with
  | some row => row.get? c
  | none => none

/-- A well-formed entry of the translation worklist: it refers to input
object `k`, carries that object's cell, and that cell is eligible and has no
dynamically attached position fields. -/
def WfEntry (cells : List Cell) (w : WCell) : Prop :=
  ∃ k, w.ref = some k ∧ cells[k]? = some w.cell ∧ eligibleCell w.cell = true ∧
    w.cell.row = none ∧ w.cell.col = none

/-- The invariant the update loop maintains on its working array relative to
the input list: same length; every slot keeps the input value at its position
and carries no position fields; and a slot still holding an original
reference holds the unmodified input object of its own position. -/
def ArrInv (cells : List Cell) (arr : List WCell) : Prop :=
  arr.length = cells.length ∧
  ∀ (j : Nat) (c : Cell) (w : WCell), cells[j]? = some c → arr[j]? = some w →
    w.cell.v = c.v ∧ w.cell.row = none ∧ w.cell.col = none ∧
    (∀ i, w.ref = some i → i = j ∧ w.cell = c)

/-! ## Supporting lemmas -/

/-! ## General lemmas -/

theorem isDigitCh_digChar (d : Nat) : isDigitCh (digChar d) = true := by
  unfold digChar
  split <;> decide

theorem natDigitsAux_props (fuel : Nat) : ∀ n, n < fuel →
    natDigitsAux fuel n ≠ [] ∧ ∀ c ∈ natDigitsAux fuel n, isDigitCh c = true := by
  induction fuel with
  | zero => intro n h; omega
  | succ fuel ih =>
    intro n h
    unfold natDigitsAux
    by_cases h10 : n < 10
    · simp [h10, isDigitCh_digChar]
    · have hdiv : n / 10 < n := Nat.div_lt_self (by omega) (by omega)
      have hrec := ih (n / 10) (by omega)
      simp only [h10, if_false]
      constructor
      · simp
      · intro c hc
        rcases List.mem_append.mp hc with hc | hc
        · exact hrec.2 c hc
        · simp at hc
          subst hc
          exact isDigitCh_digChar _

theorem natDigits_ne_nil (n : Nat) : natDigits n ≠ [] :=
  (natDigitsAux_props (n + 1) n (by omega)).1

theorem natDigits_chars (n : Nat) : ∀ c ∈ natDigits n, isDigitCh c = true :=
  (natDigitsAux_props (n + 1) n (by omega)).2

theorem intToString_ne_nil (i : Int) : intToString i ≠ [] := by
  unfold intToString
  split
  · simp
  · exact natDigits_ne_nil _

theorem intToString_chars (i : Int) :
    ∀ c ∈ intToString i, isDigitCh c = true ∨ c = '-' := by
  unfold intToString
  split <;> intro c hc
  · rcases List.mem_cons.mp hc with hc | hc
    · exact Or.inr hc
    · exact Or.inl (natDigits_chars _ c hc)
  · exact Or.inl (natDigits_chars _ c hc)

theorem isWsChar_of_digitCh {c : Char} (h : isDigitCh c = true) : isWsChar c = false := by
  revert h
  unfold isDigitCh isWsChar
  by_cases h1 : c = ' ' <;> by_cases h2 : c = '\t' <;> by_cases h3 : c = '\n' <;>
    by_cases h4 : c = '\r' <;> by_cases h5 : c = '\x0b' <;> by_cases h6 : c = '\x0c' <;>
    first
      | (subst_vars; decide)
      | (intro _; simp [h1, h2, h3, h4, h5, h6])

theorem intToString_no_ws (i : Int) : ∀ c ∈ intToString i, isWsChar c = false := by
  intro c hc
  rcases intToString_chars i c hc with h | h
  · exact isWsChar_of_digitCh h
  · subst h; decide

theorem dropWhile_eq_self_of_head (p : Char → Bool) (l : JStr)
    (h : ∀ c ∈ l, p c = false) : l.dropWhile p = l := by
  cases l with
  | nil => rfl
  | cons a l => simp [List.dropWhile_cons, h a (by simp)]

theorem jsTrim_eq_self (s : JStr) (h : ∀ c ∈ s, isWsChar c = false) : jsTrim s = s := by
  unfold jsTrim
  rw [dropWhile_eq_self_of_head _ _ h]
  rw [dropWhile_eq_self_of_head _ _ (fun c hc => h c (List.mem_reverse.mp hc))]
  exact List.reverse_reverse s

theorem takeWhile_eq_self_of (p : Char → Bool) (l : JStr)
    (h : ∀ c ∈ l, p c = true) : l.takeWhile p = l := by
  induction l with
  | nil => rfl
  | cons a l ih =>
    simp [List.takeWhile_cons, h a (by simp), ih (fun c hc => h c (by simp [hc]))]

theorem intToString_no_at (i : Int) : ∀ c ∈ intToString i, c ≠ '@' := by
  intro c hc
  rcases intToString_chars i c hc with h | h
  · rintro rfl; simp [isDigitCh] at h
  · subst h; decide

theorem intToString_no_colon (i : Int) : ∀ c ∈ intToString i, c ≠ ':' := by
  intro c hc
  rcases intToString_chars i c hc with h | h
  · rintro rfl; simp [isDigitCh] at h
  · subst h; decide

theorem intToString_has_digit (i : Int) : ∃ c ∈ intToString i, isDigitCh c = true := by
  unfold intToString
  split
  · obtain ⟨c, hc⟩ := List.exists_mem_of_ne_nil _ (natDigits_ne_nil i.natAbs)
    exact ⟨c, List.mem_cons_of_mem _ hc, natDigits_chars _ c hc⟩
  · obtain ⟨c, hc⟩ := List.exists_mem_of_ne_nil _ (natDigits_ne_nil i.toNat)
    exact ⟨c, hc, natDigits_chars _ c hc⟩

theorem isEmail_intToString (i : Int) : isEmail (intToString i) = false := by
  have hcount : (intToString i).count '@' = 0 :=
    List.count_eq_zero.mpr (fun hmem => intToString_no_at i '@' hmem rfl)
  unfold isEmail
  rw [decide_eq_false]
  rintro ⟨h1, -⟩
  omega

theorem isUrl_intToString (i : Int) : isUrl (intToString i) = false := by
  have htw : (intToString i).takeWhile (· ≠ ':') = intToString i := by
    apply takeWhile_eq_self_of
    intro c hc
    simpa using intToString_no_colon i c hc
  unfold isUrl
  rw [decide_eq_false]
  rintro ⟨h1, -⟩
  rw [htw] at h1
  omega

theorem isCodeShape_intToString (i : Int) : isCodeShape (intToString i) = false := by
  obtain ⟨c, hmem, hdig⟩ := intToString_has_digit i
  unfold isCodeShape
  rw [decide_eq_false]
  rintro ⟨-, h2, -⟩
  have hcls := (List.all_eq_true.mp h2) c hmem
  rw [decide_eq_true_eq] at hcls
  revert hdig
  unfold isDigitCh
  rcases hcls with ⟨hA, hB⟩ | h | h
  · intro hd
    rw [decide_eq_true_eq] at hd
    have h9A : ('9' : Char) < 'A' := by decide
    exact absurd hA (not_le.mpr (lt_of_le_of_lt hd.2 h9A))
  · subst h; decide
  · subst h; decide

theorem shouldSkipCell_numeric (n : Int) (glossary : List GlossaryTerm)
    (hn : n ≠ 0)
    (hg : ∀ term ∈ glossary, jsIncludes (jsLower (intToString n)) (jsLower term.term) = false) :
    shouldSkipCell { v := .vNum n, t := .n } glossary = false := by
  have htru : truthy (.vNum n) = true := by simp [truthy, hn]
  have htrim : jsTrim (intToString n) = intToString n :=
    jsTrim_eq_self _ (intToString_no_ws n)
  have hglos : (glossary.any fun term =>
      jsIncludes (jsLower (intToString n)) (jsLower term.term)) = false := by
    rw [List.any_eq_false]
    intro t ht
    simp [hg t ht]
  simp [shouldSkipCell, valueToString, htru, htrim, intToString_ne_nil,
    isEmail_intToString, isUrl_intToString, isCodeShape_intToString, hglos]

theorem shouldSkipCell_glossary (cell : Cell) (glossary : List GlossaryTerm)
    (term : GlossaryTerm) (hmem : term ∈ glossary)
    (hc : jsIncludes (jsLower (jsTrim (valueToString cell.v))) (jsLower term.term) = true) :
    shouldSkipCell cell glossary = true := by
  have hglos : (glossary.any fun t =>
      jsIncludes (jsLower (jsTrim (valueToString cell.v))) (jsLower t.term)) = true :=
    List.any_eq_true.mpr ⟨term, hmem, hc⟩
  unfold shouldSkipCell
  split
  · rfl
  · simp only
    split
    · rfl
    · split
      · rfl
      · split
        · rfl
        · split
          · rfl
          · split
            · rfl
            · simp [hglos]

theorem roundQ_mono {x y : ℚ} (h : x ≤ y) : round x ≤ round y := by
  rw [round_eq, round_eq]
  exact Int.floor_le_floor (by linarith)

theorem roundQ_hundred : round ((100 : ℚ)) = 100 := by
  rw [show ((100 : ℚ)) = ((100 : ℤ) : ℚ) by norm_num, round_intCast]

theorem lengthFactor_pos {len : Nat} (h : len ≠ 0) :
    0 < min ((len : ℚ) / 100) 2 := by
  apply lt_min
  · have : (0 : ℚ) < (len : ℚ) := by
      exact_mod_cast Nat.pos_of_ne_zero h
    positivity
  · norm_num

theorem calculateQualityScore_nonneg (issues : List QualityIssue) (len : Nat) :
    0 ≤ calculateQualityScore issues len := by
  unfold calculateQualityScore
  split
  · norm_num
  · split
    · norm_num
    · exact le_max_left 0 _

theorem calculateQualityScore_le_100 (issues : List QualityIssue) (len : Nat) :
    calculateQualityScore issues len ≤ 100 := by
  unfold calculateQualityScore
  split
  · norm_num
  · split
    · norm_num
    · rename_i hne hlen
      apply max_le (by norm_num)
      have hf : 0 < min ((len : ℚ) / 100) 2 := lengthFactor_pos hlen
      have hdiv : (0 : ℚ) ≤ ((issues.map (fun i => severityPenalty i.severity)).sum : ℚ) / min ((len : ℚ) / 100) 2 :=
        div_nonneg (by positivity) hf.le
      calc round ((100 : ℚ) - _ / _) ≤ round ((100 : ℚ)) := roundQ_mono (by linarith)
        _ = 100 := roundQ_hundred

theorem calculateQualityScore_cons_le (i : QualityIssue) (issues : List QualityIssue) (len : Nat) :
    calculateQualityScore (i :: issues) len ≤ calculateQualityScore issues len := by
  rcases List.eq_nil_or_concat issues with rfl | -
  · rw [show calculateQualityScore [] len = 100 by unfold calculateQualityScore; simp]
    exact calculateQualityScore_le_100 _ _
  · by_cases hne : issues = []
    · subst hne
      rw [show calculateQualityScore [] len = 100 by unfold calculateQualityScore; simp]
      exact calculateQualityScore_le_100 _ _
    · unfold calculateQualityScore
      rw [if_neg (by simp), if_neg hne]
      by_cases hlen : len = 0
      · simp [hlen]
      · rw [if_neg hlen, if_neg hlen]
        apply max_le_max le_rfl
        apply roundQ_mono
        have hf : 0 < min ((len : ℚ) / 100) 2 := lengthFactor_pos hlen
        have hsum : ((issues.map (fun j => severityPenalty j.severity)).sum : ℚ)
            ≤ (((i :: issues).map (fun j => severityPenalty j.severity)).sum : ℚ) := by
          simp only [List.map_cons, List.sum_cons]
          push_cast
          have : (0 : ℚ) ≤ (severityPenalty i.severity : ℚ) := by positivity
          linarith
        have := (div_le_div_iff_of_pos_right hf).mpr hsum
        linarith

theorem calculateQualityScore_perm (issues issues' : List QualityIssue) (len : Nat)
    (hp : issues.Perm issues') :
    calculateQualityScore issues' len = calculateQualityScore issues len := by
  have hsum : (issues'.map (fun j => severityPenalty j.severity)).sum
      = (issues.map (fun j => severityPenalty j.severity)).sum :=
    ((hp.map (fun j => severityPenalty j.severity)).sum_eq).symm
  have hlen := hp.length_eq
  by_cases hne : issues = []
  · subst hne
    have h0 : issues' = [] := by
      cases issues' with
      | nil => rfl
      | cons a l => simp at hlen
    subst h0
    rfl
  · have hne' : issues' ≠ [] := by
      intro h; subst h
      cases issues with
      | nil => exact hne rfl
      | cons a l => simp at hlen
    unfold calculateQualityScore
    rw [if_neg hne, if_neg hne', hsum]

theorem calculateQualityScore_invariants_core (issues : List QualityIssue) (len : Nat) :
    (0 ≤ calculateQualityScore issues len ∧ calculateQualityScore issues len ≤ 100) ∧
    (issues = [] → calculateQualityScore issues len = 100) ∧
    (∀ i : QualityIssue,
      calculateQualityScore (i :: issues) len ≤ calculateQualityScore issues len) ∧
    (∀ issues' : List QualityIssue, issues.Perm issues' →
      calculateQualityScore issues' len = calculateQualityScore issues len) ∧
    (len = 0 → issues ≠ [] → calculateQualityScore issues len = 0) := by
  refine ⟨⟨calculateQualityScore_nonneg _ _, calculateQualityScore_le_100 _ _⟩, ?_, ?_, ?_, ?_⟩
  · rintro rfl
    unfold calculateQualityScore
    simp
  · intro i
    exact calculateQualityScore_cons_le i issues len
  · intro issues' hp
    exact calculateQualityScore_perm issues issues' len hp
  · rintro rfl hne
    unfold calculateQualityScore
    rw [if_neg hne]
    simp

theorem headerMappings_some_mem {h m : JStr} (hm : headerMappings h = some m) :
    columnHeaders.contains h = true ∧ m ≠ [] ∧ jsTrim m ≠ [] := by
  unfold headerMappings at hm
  repeat' split at hm
  all_goals (try subst_vars)
  all_goals (cases hm)
  all_goals exact ⟨by decide, by decide, by decide⟩

theorem postProcessOne_forces_header (translation originalText m : JStr)
    (hm : headerMappings (jsTrim originalText) = some m) :
    postProcessOne translation originalText = m := by
  obtain ⟨hcontains, -, -⟩ := headerMappings_some_mem hm
  unfold postProcessOne
  rw [if_pos hcontains, hm]
  by_cases hcl : stripDevOrdinal translation = m
  · simp [hcl]
  · simp [hcl]

theorem postProcessTranslations_getD (translations originalTexts : List JStr)
    (i : Nat) (hi : i < translations.length) :
    (postProcessTranslations translations originalTexts).getD i []
      = postProcessOne (translations.getD i []) (originalTexts.getD i []) := by
  have hlen : (postProcessTranslations translations originalTexts).length
      = translations.length := by
    simp [postProcessTranslations]
  rw [List.getD_eq_getElem _ _ (by omega), List.getD_eq_getElem _ _ hi]
  unfold postProcessTranslations
  rw [List.getElem_map, List.getElem_enum]

theorem postProcessTranslations_length (translations originalTexts : List JStr) :
    (postProcessTranslations translations originalTexts).length = translations.length := by
  simp [postProcessTranslations]

theorem clean_chain (ls : List JStr) :
    ((((ls.map jsTrim).filter (· ≠ [])).map stripArabicOrdinal).filter (· ≠ []))
      = ls.filterMap cleanResponseLine := by
  induction ls with
  | nil => rfl
  | cons a ls ih =>
    rw [List.map_cons, List.filter_cons, List.filterMap_cons]
    by_cases h1 : jsTrim a = []
    · have hc : cleanResponseLine a = none := by simp [cleanResponseLine, h1]
      rw [if_neg (by simp [h1]), hc]
      exact ih
    · rw [if_pos (by simp [h1])]
      rw [List.map_cons, List.filter_cons]
      by_cases h2 : stripArabicOrdinal (jsTrim a) = []
      · have hc : cleanResponseLine a = none := by simp [cleanResponseLine, h1, h2]
        rw [if_neg (by simp [h2]), hc]
        exact ih
      · have hc : cleanResponseLine a = some (stripArabicOrdinal (jsTrim a)) := by
          simp [cleanResponseLine, h1, h2]
        rw [if_pos (by simp [h2]), hc]
        rw [ih]

theorem parseTranslationResponse_length (response : JStr) (expectedCount : Nat) :
    (parseTranslationResponse response expectedCount).length = expectedCount := by
  unfold parseTranslationResponse
  simp only [List.length_append, List.length_replicate, List.length_take]
  omega

theorem parseTranslationResponse_eq_spec (response : JStr) (expectedCount : Nat) :
    parseTranslationResponse response expectedCount
      = parseTranslationResponseSpec response expectedCount := by
  simp only [parseTranslationResponse, parseTranslationResponseSpec]
  rw [clean_chain]

theorem valueEq_imp_eq {a b : Value} (h : valueEq a b = true) : a = b := by
  cases a <;> cases b <;> simp [valueEq] at h <;> simp [h]

theorem valueEq_refl_strOrNum {v : Value} (h : isStrOrNum v = true) : valueEq v v = true := by
  cases v <;> simp [isStrOrNum] at h <;> simp [valueEq]

theorem translateBatch_ok_length {oracle : Oracle} {b : Nat} {texts ts : List JStr}
    (h : translateBatch oracle b texts = .ok ts) : ts.length = texts.length := by
  unfold translateBatch at h
  cases ho : oracle b texts with
  | error e => rw [ho] at h; cases h
  | ok raw =>
    rw [ho] at h
    cases h
    rw [postProcessTranslations_length, parseTranslationResponse_length]

theorem findIdx_spec_lemma (p : α → Bool) (l : List α) (k : Nat) (hk : k < l.length)
    (ht : ∀ x, l[k]? = some x → p x = true)
    (hlt : ∀ i x, i < k → l[i]? = some x → p x = false) : l.findIdx p = k := by
  induction l generalizing k with
  | nil => simp at hk
  | cons a l ih =>
    cases k with
    | zero =>
      have := ht a (by simp)
      simp [List.findIdx_cons, this]
    | succ k =>
      have h0 : p a = false := hlt 0 a (by omega) (by simp)
      rw [List.findIdx_cons, h0]
      simp only [cond_false]
      have := ih k (by simpa using hk)
        (fun x hx => ht x (by simpa using hx))
        (fun i x hi hx => hlt (i + 1) x (by omega) (by simpa using hx))
      omega

theorem chunksAux_flatten {α : Type} (size : Nat) (hsize : 0 < size) :
    ∀ (fuel : Nat) (l : List α), l.length ≤ fuel → (chunksAux size fuel l).flatten = l := by
  intro fuel
  induction fuel with
  | zero =>
    intro l hl
    have : l = [] := List.length_eq_zero.mp (by omega)
    subst this
    rfl
  | succ fuel ih =>
    intro l hl
    cases l with
    | nil => rfl
    | cons a l =>
      show ((a :: l).take size :: chunksAux size fuel ((a :: l).drop size)).flatten = a :: l
      have hlen : ((a :: l).drop size).length ≤ fuel := by
        rw [List.length_drop]
        simp only [List.length_cons] at hl ⊢
        omega
      rw [List.flatten_cons, ih _ hlen]
      exact List.take_append_drop size (a :: l)

theorem chunks50_flatten {α : Type} (l : List α) : (chunks50 l).flatten = l :=
  chunksAux_flatten batchSize (by decide) l.length l le_rfl

theorem cellMatches_eq (cells : List Cell) (arr : List WCell) (inv : ArrInv cells arr)
    (w : WCell) (hw : WfEntry cells w)
    (j : Nat) (c : Cell) (slot : WCell) (hc : cells[j]? = some c) (hs : arr[j]? = some slot) :
    cellMatches slot w = decide (c.v = w.cell.v) := by
  obtain ⟨k, href, hck, helig, hrow, hcol⟩ := hw
  obtain ⟨hv, hsrow, hscol, hsref⟩ := inv.2 j c slot hc hs
  have hiff : (cellMatches slot w = true) ↔ (c.v = w.cell.v) := by
    constructor
    · intro h
      simp only [cellMatches, decide_eq_true_eq] at h
      rcases h with h | ⟨hv2, -, -⟩
      · cases slotref : slot.ref with
        | none => rw [slotref, href] at h; simp [refEq] at h
        | some i =>
          rw [slotref, href] at h
          simp only [refEq, decide_eq_true_eq] at h
          subst h
          obtain ⟨hij, hcell⟩ := hsref i slotref
          subst hij
          rw [hck] at hc
          cases hc
          rfl
      · have := valueEq_imp_eq hv2
        rw [← hv, this]
    · intro hcv
      simp only [cellMatches, decide_eq_true_eq]
      right
      refine ⟨?_, ?_, ?_⟩
      · rw [hv, hcv]
        apply valueEq_refl_strOrNum
        simp only [eligibleCell, decide_eq_true_eq] at helig
        exact helig.2.1
      · rw [hsrow, hrow]; rfl
      · rw [hscol, hcol]; rfl
  cases hb : cellMatches slot w with
  | false =>
    have : ¬ (c.v = w.cell.v) := fun hcv => by rw [hiff.mpr hcv] at hb; cases hb
    simp [this]
  | true =>
    have := hiff.mp hb
    simp [this]

theorem findIdx_found (p : α → Bool) (l : List α) (h : l.findIdx p < l.length) :
    ∀ x, l[l.findIdx p]? = some x → p x = true := by
  induction l with
  | nil => simp at h
  | cons a l ih =>
    by_cases ha : p a = true
    · intro x hx
      rw [List.findIdx_cons, ha] at hx
      simp at hx
      simp [← hx, ha]
    · have ha' : p a = false := by simp at ha; exact ha
      intro x hx
      rw [List.findIdx_cons, ha'] at hx h
      simp only [cond_false] at hx h
      simp only [List.length_cons] at h
      exact ih (by omega) x (by simpa using hx)

theorem findIdx_cellMatches_self (cells : List Cell) (arr : List WCell)
    (inv : ArrInv cells arr) (hd : cells.Pairwise (fun a b => a.v ≠ b.v))
    (w : WCell) (k : Nat) (href : w.ref = some k) (hck : cells[k]? = some w.cell)
    (helig : eligibleCell w.cell = true) (hrow : w.cell.row = none) (hcol : w.cell.col = none) :
    arr.findIdx (fun slot => cellMatches slot w) = k := by
  have hw : WfEntry cells w := ⟨k, href, hck, helig, hrow, hcol⟩
  have hk : k < cells.length := (List.getElem?_eq_some.mp hck).1
  apply findIdx_spec_lemma _ _ k (by rw [inv.1]; exact hk)
  · intro slot hs
    rw [cellMatches_eq cells arr inv w hw k w.cell slot hck hs]
    simp
  · intro i slot hi hs
    have hilt : i < cells.length := by omega
    have hic : cells[i]? = some cells[i] :=
      List.getElem?_eq_some.mpr ⟨hilt, rfl⟩
    rw [cellMatches_eq cells arr inv w hw i _ slot hic hs]
    have hne : cells[i].v ≠ cells[k].v :=
      List.pairwise_iff_getElem.mp hd i k hilt hk hi
    have hkc : cells[k] = w.cell := (List.getElem?_eq_some.mp hck).2
    rw [hkc] at hne
    simp [hne]

theorem arrInv_set (cells : List Cell) (arr : List WCell) (inv : ArrInv cells arr)
    (w : WCell) (k : Nat) (hck : cells[k]? = some w.cell)
    (hrow : w.cell.row = none) (hcol : w.cell.col = none) (ft : JStr) :
    ArrInv cells (arr.set k ⟨none, { w.cell with translated := some ft }⟩) := by
  have hk : k < cells.length := (List.getElem?_eq_some.mp hck).1
  constructor
  · rw [List.length_set]; exact inv.1
  · intro j c slot hc hs
    by_cases hjk : j = k
    · subst hjk
      rw [List.getElem?_set_eq_of_lt _ (by rw [inv.1]; exact hk)] at hs
      cases hs
      rw [hck] at hc
      cases hc
      refine ⟨rfl, hrow, hcol, ?_⟩
      intro i hi
      cases hi
    · rw [List.getElem?_set_ne (fun h => hjk h.symm)] at hs
      exact inv.2 j c slot hc hs

theorem applyBatch_aux (cells : List Cell) (ts : List JStr)
    (hd : cells.Pairwise (fun a b => a.v ≠ b.v)) :
    ∀ (batch : List WCell) (s : Nat) (arr : List WCell),
      ArrInv cells arr →
      (∀ w ∈ batch, WfEntry cells w) →
      batch.Pairwise (fun a b => a.ref ≠ b.ref) →
      s + batch.length ≤ ts.length →
      ArrInv cells ((List.enumFrom s batch).foldl (applyOne ts) arr) ∧
      ∀ j : Nat,
        ((List.enumFrom s batch).foldl (applyOne ts) arr)[j]? =
          match (List.enumFrom s batch).find? (fun p => p.2.ref = some j) with
          | some p => some ⟨none, { p.2.cell with translated := some (finalTranslationText (ts.getD p.1 []) (valueToString p.2.cell.v)) }⟩
          | none => arr[j]? := by
  intro batch
  induction batch with
  | nil =>
    intro s arr inv _ _ _
    exact ⟨inv, fun j => by simp [List.enumFrom]⟩
  | cons w batch ih =>
    intro s arr inv hwf hpw hbound
    rw [List.enumFrom_cons, List.foldl_cons]
    obtain ⟨k, href, hck, helig, hrow, hcol⟩ := hwf w (by simp)
    have hfind : arr.findIdx (fun slot => cellMatches slot w) = k :=
      findIdx_cellMatches_self cells arr inv hd w k href hck helig hrow hcol
    have hk : k < cells.length := (List.getElem?_eq_some.mp hck).1
    have hbound' : s < ts.length := by
      simp only [List.length_cons] at hbound
      omega
    have happ : applyOne ts arr (s, w) =
        arr.set k ⟨none, { w.cell with translated := some (finalTranslationText (ts.getD s []) (valueToString w.cell.v)) }⟩ := by
      unfold applyOne
      rw [if_pos hbound']
      simp only
      rw [hfind, if_pos (by rw [inv.1]; exact hk)]
    rw [happ]
    have inv' := arrInv_set cells arr inv w k hck hrow hcol
      (finalTranslationText (ts.getD s []) (valueToString w.cell.v))
    obtain ⟨invOut, hchar⟩ := ih (s + 1) _ inv'
      (fun v hv => hwf v (by simp [hv]))
      hpw.of_cons
      (by simp only [List.length_cons] at hbound; omega)
    refine ⟨invOut, ?_⟩
    intro j
    rw [hchar j]
    by_cases hj : w.ref = some j
    · have hkj : k = j := by rw [href] at hj; cases hj; rfl
      subst hkj
      have htail : (List.enumFrom (s + 1) batch).find? (fun p => p.2.ref = some k) = none := by
        rw [List.find?_eq_none]
        intro p hp
        have hp2 : p.2 ∈ batch := by
          have hmap : (List.enumFrom (s + 1) batch).map Prod.snd = batch :=
            List.enumFrom_map_snd (s + 1) batch
          rw [← hmap]
          exact List.mem_map_of_mem Prod.snd hp
        have := (List.pairwise_cons.mp hpw).1 p.2 hp2
        rw [href] at this
        simp only [decide_eq_true_eq]
        exact fun h => this h.symm
      rw [htail]
      have hhead : (List.find? (fun p => p.2.ref = some k) ((s, w) :: List.enumFrom (s + 1) batch))
          = some (s, w) := by
        rw [List.find?_cons]
        have : (fun (p : Nat × WCell) => decide (p.2.ref = some k)) (s, w) = true := by
          simp [href]
        simp only [this]
      rw [hhead]
      rw [List.getElem?_set_eq_of_lt _ (by rw [inv.1]; exact hk)]
    · have hhead : (List.find? (fun p => p.2.ref = some j) ((s, w) :: List.enumFrom (s + 1) batch))
          = (List.enumFrom (s + 1) batch).find? (fun p => p.2.ref = some j) := by
        rw [List.find?_cons]
        have : (fun (p : Nat × WCell) => decide (p.2.ref = some j)) (s, w) = false := by
          simp [hj]
        simp only [this]
      rw [hhead]
      cases htail : (List.enumFrom (s + 1) batch).find? (fun p => p.2.ref = some j) with
      | some p => rfl
      | none =>
        have hkj : k ≠ j := by
          intro h; subst h; exact hj href
        rw [List.getElem?_set_ne hkj]

theorem mem_enum_snd {l : List WCell} {p : Nat × WCell} (hp : p ∈ l.enum) : p.2 ∈ l := by
  have hmap : l.enum.map Prod.snd = l := List.enum_map_snd l
  rw [← hmap]
  exact List.mem_map_of_mem Prod.snd hp

theorem runBatches_cons (oracle : Oracle) (bIdx : Nat) (batch : List WCell)
    (rest : List (List WCell)) (arr : List WCell) :
    runBatches oracle bIdx (batch :: rest) arr =
      match translateBatch oracle bIdx (batch.map fun w => valueToString w.cell.v) with
      | .error _ => runBatches oracle (bIdx + 1) rest arr
      | .ok translations => runBatches oracle (bIdx + 1) rest (applyBatch batch translations arr) := rfl

theorem plannedWrite_cons (oracle : Oracle) (bIdx : Nat) (batch : List WCell)
    (rest : List (List WCell)) (j : Nat) :
    plannedWrite oracle bIdx (batch :: rest) j =
      match batch.enum.find? (fun p => p.2.ref = some j) with
      | some p =>
        match writtenTranslated oracle bIdx batch p.1 p.2 with
        | some ft => some { p.2.cell with translated := some ft }
        | none => none
      | none => plannedWrite oracle (bIdx + 1) rest j := rfl


theorem plannedWrite_cons_some (oracle : Oracle) (bIdx : Nat) (batch : List WCell)
    (rest : List (List WCell)) (j : Nat) (p : Nat × WCell)
    (hfind : batch.enum.find? (fun q => q.2.ref = some j) = some p) :
    plannedWrite oracle bIdx (batch :: rest) j =
      match writtenTranslated oracle bIdx batch p.1 p.2 with
      | some ft => some { p.2.cell with translated := some ft }
      | none => none := by
  rw [plannedWrite_cons, hfind]

theorem plannedWrite_cons_none (oracle : Oracle) (bIdx : Nat) (batch : List WCell)
    (rest : List (List WCell)) (j : Nat)
    (hfind : batch.enum.find? (fun q => q.2.ref = some j) = none) :
    plannedWrite oracle bIdx (batch :: rest) j = plannedWrite oracle (bIdx + 1) rest j := by
  rw [plannedWrite_cons, hfind]

theorem applyBatch_eq_foldl (batch : List WCell) (ts : List JStr) (arr : List WCell) :
    applyBatch batch ts arr = List.foldl (applyOne ts) arr batch.enum := rfl

theorem plannedWrite_eq_none (oracle : Oracle) :
    ∀ (chunkList : List (List WCell)) (bIdx j : Nat),
      (∀ w ∈ chunkList.flatten, w.ref ≠ some j) →
      plannedWrite oracle bIdx chunkList j = none := by
  intro chunkList
  induction chunkList with
  | nil => intro bIdx j _; rfl
  | cons batch rest ih =>
    intro bIdx j hj
    have hfind : batch.enum.find? (fun p => p.2.ref = some j) = none := by
      rw [List.find?_eq_none]
      intro p hp
      have hmem : p.2 ∈ (batch :: rest).flatten := by
        rw [List.flatten_cons]
        exact List.mem_append_left _ (mem_enum_snd hp)
      simpa using hj p.2 hmem
    rw [plannedWrite_cons, hfind]
    apply ih
    intro w hw
    apply hj
    rw [List.flatten_cons]
    exact List.mem_append_right _ hw

theorem runBatches_spec (cells : List Cell) (oracle : Oracle)
    (hd : cells.Pairwise (fun a b => a.v ≠ b.v)) :
    ∀ (chunkList : List (List WCell)) (bIdx : Nat) (arr : List WCell),
      ArrInv cells arr →
      (∀ w ∈ chunkList.flatten, WfEntry cells w) →
      chunkList.flatten.Pairwise (fun a b => a.ref ≠ b.ref) →
      ArrInv cells (runBatches oracle bIdx chunkList arr) ∧
      ∀ j : Nat,
        (runBatches oracle bIdx chunkList arr)[j]? =
          match plannedWrite oracle bIdx chunkList j with
          | some c => some ⟨none, c⟩
          | none => arr[j]? := by
  intro chunkList
  induction chunkList with
  | nil =>
    intro bIdx arr inv _ _
    exact ⟨inv, fun j => rfl⟩
  | cons batch rest ih =>
    intro bIdx arr inv hwf hpw
    have hwfb : ∀ w ∈ batch, WfEntry cells w := by
      intro w hw
      exact hwf w (by rw [List.flatten_cons]; exact List.mem_append_left _ hw)
    have hwfr : ∀ w ∈ rest.flatten, WfEntry cells w := by
      intro w hw
      exact hwf w (by rw [List.flatten_cons]; exact List.mem_append_right _ hw)
    have hpwf : (batch ++ rest.flatten).Pairwise (fun a b => a.ref ≠ b.ref) := by
      rw [← List.flatten_cons]; exact hpw
    have hpwb : batch.Pairwise (fun a b => a.ref ≠ b.ref) :=
      (List.pairwise_append.mp hpwf).1
    have hpwr : rest.flatten.Pairwise (fun a b => a.ref ≠ b.ref) :=
      (List.pairwise_append.mp hpwf).2.1
    have hcross : ∀ a ∈ batch, ∀ b ∈ rest.flatten, a.ref ≠ b.ref :=
      (List.pairwise_append.mp hpwf).2.2
    rw [runBatches_cons]
    cases ho : translateBatch oracle bIdx (batch.map fun w => valueToString w.cell.v) with
    | error e =>
      obtain ⟨invOut, hchar⟩ := ih (bIdx + 1) arr inv hwfr hpwr
      refine ⟨invOut, ?_⟩
      intro j
      rw [hchar j]
      cases hfind : batch.enum.find? (fun p => p.2.ref = some j) with
      | none => rw [plannedWrite_cons_none oracle bIdx batch rest j hfind]
      | some p =>
        have hwt : writtenTranslated oracle bIdx batch p.1 p.2 = none := by
          unfold writtenTranslated batchTexts
          rw [ho]
        have hpj : p.2.ref = some j := by
          have := List.find?_some hfind
          simpa using this
        have hrestnone : plannedWrite oracle (bIdx + 1) rest j = none := by
          apply plannedWrite_eq_none
          intro w hwmem
          have hne := hcross p.2 (mem_enum_snd (List.mem_of_find?_eq_some hfind)) w hwmem
          rw [hpj] at hne
          exact fun h => hne h.symm
        rw [plannedWrite_cons_some oracle bIdx batch rest j p hfind, hwt, hrestnone]
    | ok ts =>
      have hlen : ts.length = batch.length := by
        have := translateBatch_ok_length ho
        simpa using this
      obtain ⟨invA, hcharA⟩ := applyBatch_aux cells ts hd batch 0 arr inv hwfb hpwb (by omega)
      rw [show List.enumFrom 0 batch = batch.enum from rfl] at invA hcharA
      obtain ⟨invOut, hchar⟩ := ih (bIdx + 1) (applyBatch batch ts arr) invA hwfr hpwr
      refine ⟨invOut, ?_⟩
      intro j
      rw [hchar j]
      cases hfind : batch.enum.find? (fun p => p.2.ref = some j) with
      | none =>
        rw [plannedWrite_cons_none oracle bIdx batch rest j hfind]
        cases hrest : plannedWrite oracle (bIdx + 1) rest j with
        | some c => rfl
        | none =>
          have hA := hcharA j
          rw [hfind] at hA
          rw [applyBatch_eq_foldl, hA]
      | some p =>
        have hpj : p.2.ref = some j := by
          have := List.find?_some hfind
          simpa using this
        have hwt : writtenTranslated oracle bIdx batch p.1 p.2
            = some (finalTranslationText (ts.getD p.1 []) (valueToString p.2.cell.v)) := by
          unfold writtenTranslated batchTexts
          rw [ho]
        have hrestnone : plannedWrite oracle (bIdx + 1) rest j = none := by
          apply plannedWrite_eq_none
          intro w hwmem
          have hne := hcross p.2 (mem_enum_snd (List.mem_of_find?_eq_some hfind)) w hwmem
          rw [hpj] at hne
          exact fun h => hne h.symm
        rw [plannedWrite_cons_some oracle bIdx batch rest j p hfind, hwt, hrestnone]
        have hA := hcharA j
        rw [hfind] at hA
        rw [applyBatch_eq_foldl, hA]

theorem indexedCells_getElem? (cells : List Cell) (j : Nat) :
    (indexedCells cells)[j]? = cells[j]?.map (fun c => WCell.mk (some j) c) := by
  unfold indexedCells
  rw [List.getElem?_map, List.getElem?_enum]
  cases cells[j]? <;> rfl

theorem indexedCells_length (cells : List Cell) :
    (indexedCells cells).length = cells.length := by
  simp [indexedCells]

theorem indexedCells_inv (cells : List Cell)
    (hrc : ∀ c ∈ cells, c.row = none ∧ c.col = none) :
    ArrInv cells (indexedCells cells) := by
  constructor
  · exact indexedCells_length cells
  · intro j c w hc hw
    rw [indexedCells_getElem?, hc] at hw
    simp only [Option.map_some'] at hw
    cases hw
    have hm : c ∈ cells := List.getElem?_mem hc
    exact ⟨rfl, (hrc c hm).1, (hrc c hm).2, fun i hi => by cases hi; exact ⟨rfl, rfl⟩⟩

theorem cellsToTranslateOf_wf (cells : List Cell)
    (hrc : ∀ c ∈ cells, c.row = none ∧ c.col = none) :
    ∀ w ∈ cellsToTranslateOf cells, WfEntry cells w := by
  intro w hw
  unfold cellsToTranslateOf at hw
  obtain ⟨hmem, helig⟩ := List.mem_filter.mp hw
  unfold indexedCells at hmem
  obtain ⟨p, hp, hpe⟩ := List.mem_map.mp hmem
  have hcp : cells[p.1]? = some p.2 := List.mem_enum_iff_getElem?.mp hp
  subst hpe
  have hm : p.2 ∈ cells := List.getElem?_mem hcp
  exact ⟨p.1, rfl, hcp, helig, (hrc p.2 hm).1, (hrc p.2 hm).2⟩

theorem cellsToTranslateOf_pairwise (cells : List Cell) :
    (cellsToTranslateOf cells).Pairwise (fun a b => a.ref ≠ b.ref) := by
  unfold cellsToTranslateOf
  apply List.Pairwise.sublist (List.filter_sublist _)
  apply List.pairwise_iff_getElem.mpr
  intro i j hi hj hij
  unfold indexedCells at hi hj ⊢
  rw [List.getElem_map, List.getElem_map, List.getElem_enum, List.getElem_enum]
  simp only [ne_eq, Option.some.injEq]
  omega

theorem translateCells_char (cells : List Cell) (oracle : Oracle)
    (hrc : ∀ c ∈ cells, c.row = none ∧ c.col = none)
    (hd : cells.Pairwise (fun a b => a.v ≠ b.v)) :
    (translateCells cells oracle).length = cells.length ∧
    ∀ (j : Nat) (c : Cell), cells[j]? = some c →
      (translateCells cells oracle)[j]? =
        match plannedWrite oracle 0 (chunks50 (cellsToTranslateOf cells)) j with
        | some c' => some ⟨none, c'⟩
        | none => some ⟨some j, c⟩ := by
  have hwf : ∀ w ∈ (chunks50 (cellsToTranslateOf cells)).flatten, WfEntry cells w := by
    rw [chunks50_flatten]
    exact cellsToTranslateOf_wf cells hrc
  have hpw : (chunks50 (cellsToTranslateOf cells)).flatten.Pairwise (fun a b => a.ref ≠ b.ref) := by
    rw [chunks50_flatten]
    exact cellsToTranslateOf_pairwise cells
  obtain ⟨invOut, hchar⟩ := runBatches_spec cells oracle hd
    (chunks50 (cellsToTranslateOf cells)) 0 (indexedCells cells)
    (indexedCells_inv cells hrc) hwf hpw
  constructor
  · rw [show translateCells cells oracle
      = runBatches oracle 0 (chunks50 (cellsToTranslateOf cells)) (indexedCells cells) from rfl]
    exact invOut.1
  · intro j c hc
    rw [show translateCells cells oracle
      = runBatches oracle 0 (chunks50 (cellsToTranslateOf cells)) (indexedCells cells) from rfl]
    rw [hchar j]
    rw [indexedCells_getElem?, hc]
    rfl

theorem valueToString_ne_nil_of_eligible {c : Cell} (h : eligibleCell c = true) :
    valueToString c.v ≠ [] := by
  simp only [eligibleCell, decide_eq_true_eq] at h
  obtain ⟨htr, hsn, -⟩ := h
  cases hv : c.v with
  | vNull => rw [hv] at hsn; simp [isStrOrNum] at hsn
  | vDate s => rw [hv] at hsn; simp [isStrOrNum] at hsn
  | vStr s =>
    rw [hv] at htr
    simp only [truthy] at htr
    simpa [valueToString] using htr
  | vNum n => simp only [valueToString]; exact intToString_ne_nil n

theorem finalTranslationText_ne_nil {t o : JStr} (ho : o ≠ []) :
    finalTranslationText t o ≠ [] := by
  unfold finalTranslationText
  split
  · rename_i h
    exact h.1
  · exact ho

theorem arrInv_set_gen (cells : List Cell) (arr : List WCell) (inv : ArrInv cells arr)
    (w : WCell) (idx : Nat) (ci : Cell) (hci : cells[idx]? = some ci) (hv : w.cell.v = ci.v)
    (hrow : w.cell.row = none) (hcol : w.cell.col = none) (ft : JStr) :
    ArrInv cells (arr.set idx ⟨none, { w.cell with translated := some ft }⟩) := by
  have hk : idx < cells.length := (List.getElem?_eq_some.mp hci).1
  constructor
  · rw [List.length_set]; exact inv.1
  · intro j c slot hc hs
    by_cases hjk : j = idx
    · subst hjk
      rw [List.getElem?_set_eq_of_lt _ (by rw [inv.1]; exact hk)] at hs
      cases hs
      rw [hci] at hc
      cases hc
      exact ⟨hv, hrow, hcol, fun i hi => by cases hi⟩
    · rw [List.getElem?_set_ne (fun h => hjk h.symm)] at hs
      exact inv.2 j c slot hc hs

theorem applyOne_target_value (cells : List Cell) (ts : List JStr) (arr : List WCell)
    (inv : ArrInv cells arr) (p : Nat × WCell) (hw : WfEntry cells p.2) :
    (applyOne ts arr p = arr) ∨
    (∃ idx ci, cells[idx]? = some ci ∧ p.2.cell.v = ci.v ∧
      applyOne ts arr p = arr.set idx ⟨none, { p.2.cell with translated := some (finalTranslationText (ts.getD p.1 []) (valueToString p.2.cell.v)) }⟩) := by
  unfold applyOne
  by_cases hg : p.1 < ts.length
  · rw [if_pos hg]
    simp only
    set idx := arr.findIdx (fun slot => cellMatches slot p.2) with hidx
    by_cases hlt : idx < arr.length
    · rw [if_pos hlt]
      right
      have hjc : cells[idx]? = some (cells.get ⟨idx, by rw [← inv.1]; exact hlt⟩) :=
        List.getElem?_eq_some.mpr ⟨by rw [← inv.1]; exact hlt, rfl⟩
      obtain ⟨slot, hslot⟩ : ∃ slot, arr[idx]? = some slot :=
        ⟨arr.get ⟨idx, hlt⟩, List.getElem?_eq_some.mpr ⟨hlt, rfl⟩⟩
      have hmatch : cellMatches slot p.2 = true := by
        apply findIdx_found _ _ hlt
        rw [← hidx]
        exact hslot
      rw [cellMatches_eq cells arr inv p.2 hw idx _ slot hjc hslot] at hmatch
      rw [decide_eq_true_eq] at hmatch
      exact ⟨idx, _, hjc, hmatch.symm, rfl⟩
    · rw [if_neg hlt]
      left; rfl
  · rw [if_neg hg]
    left; rfl


theorem applyBatch_inv_aux (cells : List Cell) (ts : List JStr) :
    ∀ (batch : List WCell) (s : Nat) (arr : List WCell),
      ArrInv cells arr →
      (∀ w ∈ batch, WfEntry cells w) →
      ArrInv cells ((List.enumFrom s batch).foldl (applyOne ts) arr) := by
  intro batch
  induction batch with
  | nil => intro s arr inv _; exact inv
  | cons w batch ih =>
    intro s arr inv hwf
    rw [List.enumFrom_cons, List.foldl_cons]
    have hwe : WfEntry cells w := hwf w (by simp)
    obtain ⟨k, href, hck, helig, hrow, hcol⟩ := hwe
    rcases applyOne_target_value cells ts arr inv (s, w) ⟨k, href, hck, helig, hrow, hcol⟩ with
      heq | ⟨idx, ci, hci, hv, heq⟩
    · rw [heq]
      exact ih (s + 1) arr inv (fun v hv => hwf v (by simp [hv]))
    · rw [heq]
      exact ih (s + 1) _ (arrInv_set_gen cells arr inv w idx ci hci hv hrow hcol _)
        (fun v hvv => hwf v (by simp [hvv]))

theorem applyBatch_untouched_aux (cells : List Cell) (ts : List JStr) :
    ∀ (batch : List WCell) (s : Nat) (arr : List WCell),
      ArrInv cells arr →
      (∀ w ∈ batch, WfEntry cells w) →
      ∀ (j : Nat) (cj : Cell), cells[j]? = some cj →
      (∀ w ∈ batch, w.cell.v ≠ cj.v) →
      ArrInv cells ((List.enumFrom s batch).foldl (applyOne ts) arr) ∧
      ((List.enumFrom s batch).foldl (applyOne ts) arr)[j]? = arr[j]? := by
  intro batch
  induction batch with
  | nil =>
    intro s arr inv _ j cj _ _
    exact ⟨inv, rfl⟩
  | cons w batch ih =>
    intro s arr inv hwf j cj hcj hne
    rw [List.enumFrom_cons, List.foldl_cons]
    have hw : WfEntry cells w := hwf w (by simp)
    obtain ⟨k, href, hck, helig, hrow, hcol⟩ := hw
    rcases applyOne_target_value cells ts arr inv (s, w) ⟨k, href, hck, helig, hrow, hcol⟩ with
      heq | ⟨idx, ci, hci, hv, heq⟩
    · rw [heq]
      exact ih (s + 1) arr inv (fun v hv => hwf v (by simp [hv])) j cj hcj
        (fun v hv => hne v (by simp [hv]))
    · rw [heq]
      have hinv' : ArrInv cells (arr.set idx ⟨none, { w.cell with translated := some (finalTranslationText (ts.getD s []) (valueToString w.cell.v)) }⟩) :=
        arrInv_set_gen cells arr inv w idx ci hci hv hrow hcol _
      have hne_idx : idx ≠ j := by
        intro h
        subst h
        rw [hcj] at hci
        cases hci
        exact hne w (by simp) (hv.trans rfl)
      obtain ⟨invOut, hchar⟩ := ih (s + 1) _ hinv'
        (fun v hvv => hwf v (by simp [hvv])) j cj hcj
        (fun v hvv => hne v (by simp [hvv]))
      refine ⟨invOut, ?_⟩
      rw [hchar, List.getElem?_set_ne hne_idx]

theorem runBatches_untouched (cells : List Cell) (oracle : Oracle) :
    ∀ (chunkList : List (List WCell)) (bIdx : Nat) (arr : List WCell),
      ArrInv cells arr →
      (∀ w ∈ chunkList.flatten, WfEntry cells w) →
      ∀ (j : Nat) (cj : Cell), cells[j]? = some cj →
      (∀ w ∈ chunkList.flatten, w.cell.v ≠ cj.v) →
      (runBatches oracle bIdx chunkList arr)[j]? = arr[j]? := by
  intro chunkList
  induction chunkList with
  | nil => intro bIdx arr _ _ j cj _ _; rfl
  | cons batch rest ih =>
    intro bIdx arr inv hwf j cj hcj hne
    have hwfb : ∀ w ∈ batch, WfEntry cells w := by
      intro w hw
      exact hwf w (by rw [List.flatten_cons]; exact List.mem_append_left _ hw)
    have hwfr : ∀ w ∈ rest.flatten, WfEntry cells w := by
      intro w hw
      exact hwf w (by rw [List.flatten_cons]; exact List.mem_append_right _ hw)
    have hneb : ∀ w ∈ batch, w.cell.v ≠ cj.v := by
      intro w hw
      exact hne w (by rw [List.flatten_cons]; exact List.mem_append_left _ hw)
    have hner : ∀ w ∈ rest.flatten, w.cell.v ≠ cj.v := by
      intro w hw
      exact hne w (by rw [List.flatten_cons]; exact List.mem_append_right _ hw)
    rw [runBatches_cons]
    cases ho : translateBatch oracle bIdx (batch.map fun w => valueToString w.cell.v) with
    | error e => exact ih (bIdx + 1) arr inv hwfr j cj hcj hner
    | ok ts =>
      obtain ⟨invA, hcharA⟩ := applyBatch_untouched_aux cells ts batch 0 arr inv hwfb j cj hcj hneb
      show (runBatches oracle (bIdx + 1) rest (applyBatch batch ts arr))[j]? = arr[j]?
      rw [show applyBatch batch ts arr = (List.enumFrom 0 batch).foldl (applyOne ts) arr from rfl]
      rw [ih (bIdx + 1) _ invA hwfr j cj hcj hner, hcharA]

theorem applyBatch_nonempty_aux (cells : List Cell) (ts : List JStr) :
    ∀ (batch : List WCell) (s : Nat) (arr : List WCell),
      ArrInv cells arr →
      (∀ w ∈ batch, WfEntry cells w) →
      (∀ w ∈ arr, ∀ t : JStr, w.cell.translated = some t → t ≠ []) →
      ∀ w ∈ (List.enumFrom s batch).foldl (applyOne ts) arr,
        ∀ t : JStr, w.cell.translated = some t → t ≠ [] := by
  intro batch
  induction batch with
  | nil => intro s arr _ _ hok; exact hok
  | cons w batch ih =>
    intro s arr inv hwf hok
    rw [List.enumFrom_cons, List.foldl_cons]
    have hwe : WfEntry cells w := hwf w (by simp)
    obtain ⟨k, href, hck, helig, hrow, hcol⟩ := hwe
    rcases applyOne_target_value cells ts arr inv (s, w) ⟨k, href, hck, helig, hrow, hcol⟩ with
      heq | ⟨idx, ci, hci, hv, heq⟩
    · rw [heq]
      exact ih (s + 1) arr inv (fun v hv => hwf v (by simp [hv])) hok
    · rw [heq]
      have hinv' := arrInv_set_gen cells arr inv w idx ci hci hv hrow hcol
        (finalTranslationText (ts.getD s []) (valueToString w.cell.v))
      apply ih (s + 1) _ hinv' (fun v hvv => hwf v (by simp [hvv]))
      intro v hv t ht
      rcases List.mem_or_eq_of_mem_set hv with hv' | hv'
      · exact hok v hv' t ht
      · subst hv'
        simp only at ht
        cases ht
        exact finalTranslationText_ne_nil (valueToString_ne_nil_of_eligible helig)

theorem runBatches_nonempty (cells : List Cell) (oracle : Oracle) :
    ∀ (chunkList : List (List WCell)) (bIdx : Nat) (arr : List WCell),
      ArrInv cells arr →
      (∀ w ∈ chunkList.flatten, WfEntry cells w) →
      (∀ w ∈ arr, ∀ t : JStr, w.cell.translated = some t → t ≠ []) →
      ∀ w ∈ runBatches oracle bIdx chunkList arr,
        ∀ t : JStr, w.cell.translated = some t → t ≠ [] := by
  intro chunkList
  induction chunkList with
  | nil => intro bIdx arr _ _ hok; exact hok
  | cons batch rest ih =>
    intro bIdx arr inv hwf hok
    have hwfb : ∀ w ∈ batch, WfEntry cells w := by
      intro w hw
      exact hwf w (by rw [List.flatten_cons]; exact List.mem_append_left _ hw)
    have hwfr : ∀ w ∈ rest.flatten, WfEntry cells w := by
      intro w hw
      exact hwf w (by rw [List.flatten_cons]; exact List.mem_append_right _ hw)
    rw [runBatches_cons]
    cases ho : translateBatch oracle bIdx (batch.map fun w => valueToString w.cell.v) with
    | error e => exact ih (bIdx + 1) arr inv hwfr hok
    | ok ts =>
      have invA := applyBatch_inv_aux cells ts batch 0 arr inv hwfb
      have hokA := applyBatch_nonempty_aux cells ts batch 0 arr inv hwfb hok
      show ∀ w ∈ runBatches oracle (bIdx + 1) rest (applyBatch batch ts arr),
        ∀ t : JStr, w.cell.translated = some t → t ≠ []
      rw [show applyBatch batch ts arr = (List.enumFrom 0 batch).foldl (applyOne ts) arr from rfl]
      exact ih (bIdx + 1) _ invA hwfr hokA

theorem find?_spec_lemma (p : α → Bool) (l : List α) (k : Nat) (x : α) (hk : l[k]? = some x)
    (ht : p x = true) (hlt : ∀ i y, i < k → l[i]? = some y → p y = false) :
    l.find? p = some x := by
  induction l generalizing k with
  | nil => simp at hk
  | cons a l ih =>
    cases k with
    | zero =>
      simp only [List.getElem?_cons_zero, Option.some.injEq] at hk
      subst hk
      rw [List.find?_cons_of_pos _ ht]
    | succ k =>
      have h0 : p a = false := hlt 0 a (by omega) (by simp)
      rw [List.find?_cons_of_neg _ (by simp [h0])]
      exact ih k (by simpa using hk)
        (fun i y hi hy => hlt (i + 1) y (by omega) (by simpa using hy))

theorem translateBatch_failAt_self (oracle : Oracle) (k : Nat) (texts : List JStr) :
    translateBatch (failAt k oracle) k texts = .error () := by
  unfold translateBatch failAt
  simp

theorem translateBatch_failAt_other (oracle : Oracle) (k b : Nat) (hb : b ≠ k)
    (texts : List JStr) :
    translateBatch (failAt k oracle) b texts = translateBatch oracle b texts := by
  unfold translateBatch failAt
  rw [if_neg hb]

theorem plannedWrite_at (oracle : Oracle) :
    ∀ (chunkList : List (List WCell)) (bIdx b : Nat) (batch : List WCell)
      (p : Nat) (w : WCell) (j : Nat),
      chunkList[b]? = some batch →
      batch.enum.find? (fun q => q.2.ref = some j) = some (p, w) →
      chunkList.flatten.Pairwise (fun a b => a.ref ≠ b.ref) →
      plannedWrite oracle bIdx chunkList j =
        match writtenTranslated oracle (bIdx + b) batch p w with
        | some ft => some { w.cell with translated := some ft }
        | none => none := by
  intro chunkList
  induction chunkList with
  | nil => intro bIdx b batch p w j hb; simp at hb
  | cons head rest ih =>
    intro bIdx b batch p w j hb hfind hpw
    have hpwf : (head ++ rest.flatten).Pairwise (fun a b => a.ref ≠ b.ref) := by
      rw [← List.flatten_cons]; exact hpw
    cases b with
    | zero =>
      simp only [List.getElem?_cons_zero, Option.some.injEq] at hb
      subst hb
      rw [plannedWrite_cons_some oracle bIdx head rest j (p, w) hfind]
      norm_num
    | succ b =>
      simp only [List.getElem?_cons_succ] at hb
      have hwj : w.ref = some j := by
        have := List.find?_some hfind
        simpa using this
      have hwmem : w ∈ rest.flatten := by
        have hbatchmem : batch ∈ rest := by
          have := List.getElem?_mem hb
          exact this
        have hwb : w ∈ batch := mem_enum_snd (show (p, w) ∈ batch.enum from List.mem_of_find?_eq_some hfind)
        exact List.mem_flatten.mpr ⟨batch, hbatchmem, hwb⟩
      have hheadnone : head.enum.find? (fun q => q.2.ref = some j) = none := by
        rw [List.find?_eq_none]
        intro q hq
        have hne := (List.pairwise_append.mp hpwf).2.2 q.2 (mem_enum_snd hq) w hwmem
        rw [hwj] at hne
        simpa using hne
      rw [plannedWrite_cons_none oracle bIdx head rest j hheadnone]
      have := ih (bIdx + 1) b batch p w j hb hfind
        (by
          have := (List.pairwise_append.mp hpwf).2.1
          exact this)
      rw [this]
      have harith : bIdx + 1 + b = bIdx + (b + 1) := by omega
      rw [harith]

theorem plannedWrite_failAt_eq (oracle : Oracle) (k : Nat) :
    ∀ (chunkList : List (List WCell)) (bIdx j : Nat),
      (∀ (i : Nat) (batch : List WCell) (w : WCell),
        bIdx + i = k → chunkList[i]? = some batch → w ∈ batch → w.ref ≠ some j) →
      plannedWrite (failAt k oracle) bIdx chunkList j = plannedWrite oracle bIdx chunkList j := by
  intro chunkList
  induction chunkList with
  | nil => intro bIdx j _; rfl
  | cons batch rest ih =>
    intro bIdx j hk
    cases hfind : batch.enum.find? (fun q => q.2.ref = some j) with
    | none =>
      rw [plannedWrite_cons_none _ bIdx batch rest j hfind,
        plannedWrite_cons_none oracle bIdx batch rest j hfind]
      apply ih
      intro i batch' w hi hb hw
      exact hk (i + 1) batch' w (by omega) (by simpa using hb) hw
    | some p =>
      have hpj : p.2.ref = some j := by
        have := List.find?_some hfind
        simpa using this
      have hbk : bIdx ≠ k := by
        intro h
        exact hk 0 batch p.2 (by omega) (by simp)
          (mem_enum_snd (List.mem_of_find?_eq_some hfind)) hpj
      rw [plannedWrite_cons_some _ bIdx batch rest j p hfind,
        plannedWrite_cons_some oracle bIdx batch rest j p hfind]
      have : writtenTranslated (failAt k oracle) bIdx batch p.1 p.2
          = writtenTranslated oracle bIdx batch p.1 p.2 := by
        unfold writtenTranslated
        rw [translateBatch_failAt_other oracle k bIdx hbk]
      rw [this]

theorem headerMappings_none_of_not_contains {h : JStr}
    (hc : ¬ columnHeaders.contains h = true) : headerMappings h = none := by
  cases hm : headerMappings h with
  | none => rfl
  | some m => exact absurd (headerMappings_some_mem hm).1 hc

theorem columnHeaders_contains_some {h : JStr} (hc : columnHeaders.contains h = true) :
    ∃ m, headerMappings h = some m := by
  simp only [columnHeaders, List.contains_eq_any_beq, List.any_eq_true] at hc
  obtain ⟨x, hx, hbeq⟩ := hc
  have hxh : h = x := beq_iff_eq.mp hbeq
  subst hxh
  fin_cases hx <;> exact ⟨_, rfl⟩

theorem postProcessOne_nil (orig : JStr) :
    postProcessOne [] orig
      = match headerMappings (jsTrim orig) with
        | some m => m
        | none => [] := by
  unfold postProcessOne
  by_cases hcont : columnHeaders.contains (jsTrim orig) = true
  · rw [if_pos hcont]
    obtain ⟨m, hm⟩ := columnHeaders_contains_some hcont
    rw [hm]
    have hmne := (headerMappings_some_mem hm).2.1
    simp only [show stripDevOrdinal [] = [] from rfl]
    rw [if_pos (Ne.symm hmne)]
  · rw [if_neg hcont, headerMappings_none_of_not_contains hcont]
    rfl

theorem finalTranslationText_postOne_nil (orig : JStr) :
    finalTranslationText (postProcessOne [] orig) orig = emptyLineResult orig := by
  rw [postProcessOne_nil]
  unfold emptyLineResult
  cases hm : headerMappings (jsTrim orig) with
  | some m =>
    obtain ⟨-, hne, htne⟩ := headerMappings_some_mem hm
    unfold finalTranslationText
    rw [if_pos ⟨hne, htne⟩]
  | none =>
    unfold finalTranslationText
    rw [if_neg (by simp)]

theorem indexedCells_cell_mem {cells : List Cell} {w : WCell}
    (hw : w ∈ indexedCells cells) : w.cell ∈ cells := by
  unfold indexedCells at hw
  obtain ⟨p, hp, hpe⟩ := List.mem_map.mp hw
  subst hpe
  exact List.getElem?_mem (List.mem_enum_iff_getElem?.mp hp)

theorem batch_mem_chunk_props {cells : List Cell} {b : Nat} {batch : List WCell}
    (hb : (chunks50 (cellsToTranslateOf cells))[b]? = some batch) :
    (∀ w ∈ batch, w ∈ cellsToTranslateOf cells) ∧
    batch.Pairwise (fun a b => a.ref ≠ b.ref) := by
  have hmem : batch ∈ chunks50 (cellsToTranslateOf cells) := List.getElem?_mem hb
  have hsub : batch.Sublist (chunks50 (cellsToTranslateOf cells)).flatten :=
    List.sublist_flatten_of_mem hmem
  constructor
  · intro w hw
    have hmemf := hsub.subset hw
    rw [chunks50_flatten] at hmemf
    exact hmemf
  · apply List.Pairwise.sublist hsub
    rw [chunks50_flatten]
    exact cellsToTranslateOf_pairwise cells


theorem batch_find_ref {cells : List Cell} {b : Nat} {batch : List WCell} {p : Nat}
    {w : WCell} {j : Nat}
    (hb : (chunks50 (cellsToTranslateOf cells))[b]? = some batch)
    (hp : batch[p]? = some w) (href : w.ref = some j) :
    batch.enum.find? (fun q => q.2.ref = some j) = some (p, w) := by
  obtain ⟨-, hbatchpw⟩ := batch_mem_chunk_props hb
  have hplen : p < batch.length := (List.getElem?_eq_some.mp hp).1
  apply find?_spec_lemma _ _ p (p, w)
  · rw [List.getElem?_enum, hp]
    rfl
  · simp only
    rw [href]
    simp
  · intro i y hi hy
    rw [List.getElem?_enum] at hy
    cases hyy : batch[i]? with
    | none => rw [hyy] at hy; cases hy
    | some z =>
      rw [hyy] at hy
      cases hy
      simp only
      have hzlt : i < batch.length := (List.getElem?_eq_some.mp hyy).1
      have hzz : batch[i] = z := (List.getElem?_eq_some.mp hyy).2
      have hww : batch[p] = w := (List.getElem?_eq_some.mp hp).2
      have hne := List.pairwise_iff_getElem.mp hbatchpw i p hzlt hplen hi
      rw [hzz, hww, href] at hne
      simpa using hne

theorem translateCells_empty_line_core (cells : List Cell) (oracle : Oracle)
    (hrc : ∀ c ∈ cells, c.row = none ∧ c.col = none)
    (hd : cells.Pairwise (fun a b => a.v ≠ b.v))
    (htr : ∀ c ∈ cells, c.translated = none) :
    (∀ w ∈ translateCells cells oracle, ∀ t : JStr, w.cell.translated = some t → t ≠ []) ∧
    (∀ (b p j : Nat) (batch : List WCell) (w : WCell) (raw : JStr),
      (chunks50 (cellsToTranslateOf cells))[b]? = some batch →
      batch[p]? = some w → w.ref = some j →
      oracle b (batchTexts batch) = .ok raw →
      (parseTranslationResponse raw (batchTexts batch).length).getD p [] = [] →
      (translateCells cells oracle)[j]?
        = some ⟨none, { w.cell with translated := some (emptyLineResult (valueToString w.cell.v)) }⟩) := by
  have hwfall : ∀ w ∈ (chunks50 (cellsToTranslateOf cells)).flatten, WfEntry cells w := by
    rw [chunks50_flatten]
    exact cellsToTranslateOf_wf cells hrc
  have hpwall : (chunks50 (cellsToTranslateOf cells)).flatten.Pairwise (fun a b => a.ref ≠ b.ref) := by
    rw [chunks50_flatten]
    exact cellsToTranslateOf_pairwise cells
  constructor
  · show ∀ w ∈ runBatches oracle 0 (chunks50 (cellsToTranslateOf cells)) (indexedCells cells),
      ∀ t : JStr, w.cell.translated = some t → t ≠ []
    apply runBatches_nonempty cells oracle _ 0 _ (indexedCells_inv cells hrc) hwfall
    intro w hw t ht
    rw [htr w.cell (indexedCells_cell_mem hw)] at ht
    cases ht
  · intro b p j batch w raw hb hp href ho hparse
    obtain ⟨hbatchsub, hbatchpw⟩ := batch_mem_chunk_props hb
    have hwct : w ∈ cellsToTranslateOf cells := hbatchsub w (List.getElem?_mem hp)
    have hwf : WfEntry cells w := cellsToTranslateOf_wf cells hrc w hwct
    obtain ⟨k, hrefk, hck, helig, hrow, hcol⟩ := hwf
    have hkj : k = j := by
      rw [hrefk] at href
      exact Option.some.inj href
    rw [hkj] at hrefk hck
    have hplen : p < batch.length := (List.getElem?_eq_some.mp hp).1
    have hfind : batch.enum.find? (fun q => q.2.ref = some j) = some (p, w) :=
      batch_find_ref hb hp hrefk
    have hplan : plannedWrite oracle 0 (chunks50 (cellsToTranslateOf cells)) j
        = some { w.cell with translated := some (emptyLineResult (valueToString w.cell.v)) } := by
      rw [plannedWrite_at oracle (chunks50 (cellsToTranslateOf cells)) 0 b batch p w j hb hfind hpwall]
      have hwt : writtenTranslated oracle (0 + b) batch p w
          = some (finalTranslationText
              ((postProcessTranslations (parseTranslationResponse raw (batchTexts batch).length) (batchTexts batch)).getD p [])
              (valueToString w.cell.v)) := by
        unfold writtenTranslated translateBatch
        rw [show (0 + b) = b by omega, ho]
      rw [hwt]
      have hlen1 : (batchTexts batch).length = batch.length := by simp [batchTexts]
      have hgetpost : (postProcessTranslations (parseTranslationResponse raw (batchTexts batch).length) (batchTexts batch)).getD p []
          = postProcessOne ((parseTranslationResponse raw (batchTexts batch).length).getD p [])
              ((batchTexts batch).getD p []) := by
        apply postProcessTranslations_getD
        rw [parseTranslationResponse_length, hlen1]
        exact hplen
      have htexts : (batchTexts batch).getD p [] = valueToString w.cell.v := by
        have : (batchTexts batch)[p]? = some (valueToString w.cell.v) := by
          unfold batchTexts
          rw [List.getElem?_map, hp]
          rfl
        rw [List.getD_eq_getElem?_getD, this]
        rfl
      rw [hgetpost, hparse, htexts, finalTranslationText_postOne_nil]
    show (runBatches oracle 0 (chunks50 (cellsToTranslateOf cells)) (indexedCells cells))[j]?
      = some ⟨none, { w.cell with translated := some (emptyLineResult (valueToString w.cell.v)) }⟩
    obtain ⟨-, hchar⟩ := runBatches_spec cells oracle hd (chunks50 (cellsToTranslateOf cells)) 0
      (indexedCells cells) (indexedCells_inv cells hrc) hwfall hpwall
    rw [hchar j, hplan]

theorem translateCells_skip_core (cells : List Cell) (oracle : Oracle)
    (hrc : ∀ c ∈ cells, c.row = none ∧ c.col = none)
    (j : Nat) (cj : Cell) (hcj : cells[j]? = some cj)
    (hne : ∀ e ∈ cells, eligibleCell e = true → e.v ≠ cj.v) :
    (translateCells cells oracle)[j]? = some ⟨some j, cj⟩ := by
  have hwfall : ∀ w ∈ (chunks50 (cellsToTranslateOf cells)).flatten, WfEntry cells w := by
    rw [chunks50_flatten]
    exact cellsToTranslateOf_wf cells hrc
  have hvals : ∀ w ∈ (chunks50 (cellsToTranslateOf cells)).flatten, w.cell.v ≠ cj.v := by
    intro w hw
    obtain ⟨k, -, hck, helig, -, -⟩ := hwfall w hw
    exact hne w.cell (List.getElem?_mem hck) helig
  show (runBatches oracle 0 (chunks50 (cellsToTranslateOf cells)) (indexedCells cells))[j]?
    = some ⟨some j, cj⟩
  rw [runBatches_untouched cells oracle (chunks50 (cellsToTranslateOf cells)) 0
    (indexedCells cells) (indexedCells_inv cells hrc) hwfall j cj hcj hvals]
  rw [indexedCells_getElem?, hcj]
  rfl

theorem translateCells_failAt_core (cells : List Cell) (oracle : Oracle) (k : Nat)
    (hrc : ∀ c ∈ cells, c.row = none ∧ c.col = none)
    (hd : cells.Pairwise (fun a b => a.v ≠ b.v))
    (htr : ∀ c ∈ cells, c.translated = none) :
    (translateCells cells (failAt k oracle)).length = cells.length ∧
    (∀ (batch : List WCell) (w : WCell) (j : Nat) (cj : Cell),
      (chunks50 (cellsToTranslateOf cells))[k]? = some batch → w ∈ batch →
      w.ref = some j → cells[j]? = some cj →
      (translateCells cells (failAt k oracle))[j]? = some ⟨some j, cj⟩ ∧
      cj.translated = none ∧ effectiveExport cj = cj.v) ∧
    (∀ j : Nat,
      (∀ (batch : List WCell) (w : WCell),
        (chunks50 (cellsToTranslateOf cells))[k]? = some batch → w ∈ batch →
        w.ref ≠ some j) →
      (translateCells cells (failAt k oracle))[j]? = (translateCells cells oracle)[j]?) := by
  have hwfall : ∀ w ∈ (chunks50 (cellsToTranslateOf cells)).flatten, WfEntry cells w := by
    rw [chunks50_flatten]
    exact cellsToTranslateOf_wf cells hrc
  have hpwall : (chunks50 (cellsToTranslateOf cells)).flatten.Pairwise (fun a b => a.ref ≠ b.ref) := by
    rw [chunks50_flatten]
    exact cellsToTranslateOf_pairwise cells
  obtain ⟨hlenF, hcharF⟩ := translateCells_char cells (failAt k oracle) hrc hd
  obtain ⟨hlenO, hcharO⟩ := translateCells_char cells oracle hrc hd
  refine ⟨hlenF, ?_, ?_⟩
  · intro batch w j cj hb hw href hcj
    obtain ⟨p, hp⟩ : ∃ p : Nat, batch[p]? = some w := by
      obtain ⟨n, hn, he⟩ := List.getElem_of_mem hw
      exact ⟨n, by rw [List.getElem?_eq_some]; exact ⟨hn, he⟩⟩
    have hfind : batch.enum.find? (fun q => q.2.ref = some j) = some (p, w) :=
      batch_find_ref hb hp href
    have hplan : plannedWrite (failAt k oracle) 0 (chunks50 (cellsToTranslateOf cells)) j = none := by
      rw [plannedWrite_at (failAt k oracle) (chunks50 (cellsToTranslateOf cells)) 0 k batch p w j hb hfind hpwall]
      have hwt : writtenTranslated (failAt k oracle) (0 + k) batch p w = none := by
        unfold writtenTranslated
        rw [show (0 + k) = k by omega, translateBatch_failAt_self]
      rw [hwt]
    rw [hcharF j cj hcj, hplan]
    refine ⟨rfl, htr cj (List.getElem?_mem hcj), ?_⟩
    unfold effectiveExport
    rw [htr cj (List.getElem?_mem hcj)]
  · intro j hnoref
    by_cases hj : j < cells.length
    · obtain ⟨cj, hcj⟩ : ∃ cj, cells[j]? = some cj :=
        ⟨cells.get ⟨j, hj⟩, List.getElem?_eq_some.mpr ⟨hj, rfl⟩⟩
      rw [hcharF j cj hcj, hcharO j cj hcj]
      rw [plannedWrite_failAt_eq oracle k (chunks50 (cellsToTranslateOf cells)) 0 j]
      intro i batch w hi hb hw
      have hik : i = k := by omega
      subst hik
      exact hnoref batch w hb hw
    · have h1 : (translateCells cells (failAt k oracle))[j]? = none := by
        rw [List.getElem?_eq_none]
        omega
      have h2 : (translateCells cells oracle)[j]? = none := by
        rw [List.getElem?_eq_none]
        rw [hlenO]
        omega
      rw [h1, h2]

/-! ## Sheet-level reconciliation lemmas -/

theorem runBatches_inv (cells : List Cell) (oracle : Oracle) :
    ∀ (chunkList : List (List WCell)) (bIdx : Nat) (arr : List WCell),
      ArrInv cells arr →
      (∀ w ∈ chunkList.flatten, WfEntry cells w) →
      ArrInv cells (runBatches oracle bIdx chunkList arr) := by
  intro chunkList
  induction chunkList with
  | nil => intro bIdx arr inv _; exact inv
  | cons batch rest ih =>
    intro bIdx arr inv hwf
    have hwfb : ∀ w ∈ batch, WfEntry cells w := by
      intro w hw
      exact hwf w (by rw [List.flatten_cons]; exact List.mem_append_left _ hw)
    have hwfr : ∀ w ∈ rest.flatten, WfEntry cells w := by
      intro w hw
      exact hwf w (by rw [List.flatten_cons]; exact List.mem_append_right _ hw)
    rw [runBatches_cons]
    cases ho : translateBatch oracle bIdx (batch.map fun w => valueToString w.cell.v) with
    | error e => exact ih (bIdx + 1) arr inv hwfr
    | ok ts =>
      have invA : ArrInv cells (applyBatch batch ts arr) := by
        rw [applyBatch_eq_foldl]
        exact applyBatch_inv_aux cells ts batch 0 arr inv hwfb
      show ArrInv cells (runBatches oracle (bIdx + 1) rest (applyBatch batch ts arr))
      exact ih (bIdx + 1) (applyBatch batch ts arr) invA hwfr

theorem translateCells_inv (cells : List Cell) (oracle : Oracle)
    (hrc : ∀ c ∈ cells, c.row = none ∧ c.col = none) :
    ArrInv cells (translateCells cells oracle) := by
  have hwf : ∀ w ∈ (chunks50 (cellsToTranslateOf cells)).flatten, WfEntry cells w := by
    rw [chunks50_flatten]
    exact cellsToTranslateOf_wf cells hrc
  exact runBatches_inv cells oracle (chunks50 (cellsToTranslateOf cells)) 0
    (indexedCells cells) (indexedCells_inv cells hrc) hwf

theorem translateCells_rowcol (cells : List Cell) (oracle : Oracle)
    (hrc : ∀ c ∈ cells, c.row = none ∧ c.col = none) :
    ∀ w ∈ translateCells cells oracle, w.cell.row = none ∧ w.cell.col = none := by
  intro w hw
  obtain ⟨inv_len, inv_pt⟩ := translateCells_inv cells oracle hrc
  obtain ⟨j, hj⟩ := List.mem_iff_getElem?.mp hw
  have hjlt : j < (translateCells cells oracle).length := (List.getElem?_eq_some.mp hj).1
  have hjc : j < cells.length := by rw [inv_len] at hjlt; exact hjlt
  have hc : cells[j]? = some cells[j] := List.getElem?_eq_getElem hjc
  have hpt := inv_pt j cells[j] w hc hj
  exact ⟨hpt.2.1, hpt.2.2.1⟩

theorem gridGet_mem {g : List (List Cell)} {r c : Nat} {cell : Cell}
    (h : gridGet g r c = some cell) : ∃ row ∈ g, cell ∈ row := by
  simp only [gridGet, List.get?_eq_getElem?] at h
  cases hg : g[r]? with
  | none =>
    rw [hg] at h
    exact Option.noConfusion h
  | some row =>
    rw [hg] at h
    have h' : row[c]? = some cell := h
    exact ⟨row, List.getElem?_mem hg, List.getElem?_mem h'⟩

theorem gridGet_setCellAt_ne (g : List (List Cell)) (r c r' c' : Nat) (cell : Cell)
    (h : r' ≠ r ∨ c' ≠ c) :
    gridGet (setCellAt g r c cell) r' c' = gridGet g r' c' := by
  simp only [gridGet, setCellAt, List.get?_eq_getElem?]
  cases hg : g[r]? with
  | none => rfl
  | some row =>
    by_cases hrr : r' = r
    · subst hrr
      have hcc : c' ≠ c := by
        rcases h with h | h
        · exact absurd rfl h
        · exact h
      have hrlt : r' < g.length := (List.getElem?_eq_some.mp hg).1
      rw [List.getElem?_set_eq_of_lt (row.set c cell) hrlt, hg]
      show (row.set c cell)[c']? = row[c']?
      exact List.getElem?_set_ne (Ne.symm hcc)
    · rw [List.getElem?_set_ne (fun he => hrr he.symm)]

theorem gridGet_setCellAt_self (g : List (List Cell)) (r c : Nat) (cell old : Cell)
    (h : gridGet g r c = some old) :
    gridGet (setCellAt g r c cell) r c = some cell := by
  simp only [gridGet, setCellAt, List.get?_eq_getElem?] at h ⊢
  cases hg : g[r]? with
  | none =>
    rw [hg] at h
    exact Option.noConfusion h
  | some row =>
    rw [hg] at h
    have h' : row[c]? = some old := h
    have hclt : c < row.length := (List.getElem?_eq_some.mp h').1
    have hrlt : r < g.length := (List.getElem?_eq_some.mp hg).1
    rw [List.getElem?_set_eq_of_lt (row.set c cell) hrlt]
    show (row.set c cell)[c]? = some cell
    exact List.getElem?_set_eq_of_lt cell hclt

theorem enum_fst_pairwise {α : Type} (l : List α) :
    l.enum.Pairwise (fun p q => p.1 ≠ q.1) := by
  apply List.pairwise_iff_getElem.mpr
  intro i j hi hj hij
  simp only [List.getElem_enum]
  omega

theorem collect_inner_rowIndex {rp : Nat × List Cell} {x : SubmittedCell}
    (h : x ∈ rp.2.enum.filterMap
      (fun cp => if eligibleCell cp.2 then some ⟨cp.2, rp.1, cp.1⟩ else none)) :
    x.rowIndex = rp.1 := by
  obtain ⟨cp, hcp, hcpe⟩ := List.mem_filterMap.mp h
  by_cases he : eligibleCell cp.2 = true
  · rw [if_pos he] at hcpe
    cases hcpe
    rfl
  · rw [if_neg he] at hcpe
    exact Option.noConfusion hcpe

theorem collectCells_mem {u : List (List Cell)} {item : SubmittedCell}
    (h : item ∈ collectCells u) :
    gridGet u item.rowIndex item.colIndex = some item.cell ∧
    eligibleCell item.cell = true := by
  unfold collectCells at h
  obtain ⟨l, hl, hil⟩ := List.mem_flatten.mp h
  obtain ⟨rp, hrp, rfl⟩ := List.mem_map.mp hl
  obtain ⟨cp, hcp, hcpe⟩ := List.mem_filterMap.mp hil
  by_cases he : eligibleCell cp.2 = true
  · rw [if_pos he] at hcpe
    cases hcpe
    have hu : u[rp.1]? = some rp.2 := List.mem_enum_iff_getElem?.mp hrp
    have hc2 : rp.2[cp.1]? = some cp.2 := List.mem_enum_iff_getElem?.mp hcp
    refine ⟨?_, he⟩
    simp only [gridGet, List.get?_eq_getElem?]
    rw [hu]
    exact hc2
  · rw [if_neg he] at hcpe
    exact Option.noConfusion hcpe

theorem collectCells_pairwise (u : List (List Cell)) :
    (collectCells u).Pairwise
      (fun a b => a.rowIndex ≠ b.rowIndex ∨ a.colIndex ≠ b.colIndex) := by
  unfold collectCells
  rw [List.pairwise_flatten]
  constructor
  · intro l hl
    obtain ⟨rp, hrp, rfl⟩ := List.mem_map.mp hl
    rw [List.pairwise_filterMap]
    refine List.Pairwise.imp ?_ (enum_fst_pairwise rp.2)
    intro p q hpq b hb b' hb'
    rw [Option.mem_def] at hb hb'
    by_cases hep : eligibleCell p.2 = true
    · rw [if_pos hep] at hb
      cases hb
      by_cases heq : eligibleCell q.2 = true
      · rw [if_pos heq] at hb'
        cases hb'
        exact Or.inr hpq
      · rw [if_neg heq] at hb'
        exact Option.noConfusion hb'
    · rw [if_neg hep] at hb
      exact Option.noConfusion hb
  · rw [List.pairwise_map]
    refine List.Pairwise.imp ?_ (enum_fst_pairwise u)
    intro rp rq hne x hx y hy
    left
    rw [collect_inner_rowIndex hx, collect_inner_rowIndex hy]
    exact hne

theorem reconcile_cons (i : SubmittedCell) (is : List SubmittedCell) (tcs : List Cell)
    (g : List (List Cell)) :
    reconcile (i :: is) tcs g =
      reconcile is tcs
        (match reconcileOne tcs i with
         | some cellW => setCellAt g i.rowIndex i.colIndex cellW
         | none => g) := rfl

theorem reconcile_untouched (tcs : List Cell) (r c : Nat) :
    ∀ (items : List SubmittedCell) (g : List (List Cell)),
      (∀ item ∈ items, item.rowIndex ≠ r ∨ item.colIndex ≠ c) →
      gridGet (reconcile items tcs g) r c = gridGet g r c := by
  intro items
  induction items with
  | nil => intro g _; rfl
  | cons i is ih =>
    intro g hpos
    rw [reconcile_cons]
    have hrest : ∀ item ∈ is, item.rowIndex ≠ r ∨ item.colIndex ≠ c :=
      fun item hitem => hpos item (List.mem_cons_of_mem _ hitem)
    have hi := hpos i (List.mem_cons_self i is)
    cases ho : reconcileOne tcs i with
    | none =>
      show gridGet (reconcile is tcs g) r c = gridGet g r c
      exact ih g hrest
    | some w =>
      show gridGet (reconcile is tcs (setCellAt g i.rowIndex i.colIndex w)) r c = gridGet g r c
      rw [ih (setCellAt g i.rowIndex i.colIndex w) hrest]
      apply gridGet_setCellAt_ne
      rcases hi with h | h
      · exact Or.inl (fun he => h he.symm)
      · exact Or.inr (fun he => h he.symm)

theorem reconcile_written (tcs : List Cell) :
    ∀ (items : List SubmittedCell) (g : List (List Cell)) (item : SubmittedCell) (old : Cell),
      items.Pairwise (fun a b => a.rowIndex ≠ b.rowIndex ∨ a.colIndex ≠ b.colIndex) →
      item ∈ items →
      gridGet g item.rowIndex item.colIndex = some old →
      gridGet (reconcile items tcs g) item.rowIndex item.colIndex =
        some ((reconcileOne tcs item).getD old) := by
  intro items
  induction items with
  | nil => intro g item old _ hmem _; exact absurd hmem (List.not_mem_nil item)
  | cons i is ih =>
    intro g item old hpw hmem hold
    rw [reconcile_cons]
    rw [List.pairwise_cons] at hpw
    rcases List.mem_cons.mp hmem with rfl | hmem'
    · have hdisj : ∀ b ∈ is, b.rowIndex ≠ item.rowIndex ∨ b.colIndex ≠ item.colIndex := by
        intro b hb
        rcases hpw.1 b hb with h | h
        · exact Or.inl (fun he => h he.symm)
        · exact Or.inr (fun he => h he.symm)
      cases ho : reconcileOne tcs item with
      | none =>
        show gridGet (reconcile is tcs g) item.rowIndex item.colIndex = some (Option.getD none old)
        rw [reconcile_untouched tcs item.rowIndex item.colIndex is g hdisj, hold]
        rfl
      | some w =>
        show gridGet (reconcile is tcs (setCellAt g item.rowIndex item.colIndex w))
            item.rowIndex item.colIndex = some (Option.getD (some w) old)
        rw [reconcile_untouched tcs item.rowIndex item.colIndex is
          (setCellAt g item.rowIndex item.colIndex w) hdisj]
        rw [gridGet_setCellAt_self g item.rowIndex item.colIndex w old hold]
        rfl
    · have hine : item.rowIndex ≠ i.rowIndex ∨ item.colIndex ≠ i.colIndex := by
        rcases hpw.1 item hmem' with h | h
        · exact Or.inl (fun he => h he.symm)
        · exact Or.inr (fun he => h he.symm)
      cases ho : reconcileOne tcs i with
      | none =>
        show gridGet (reconcile is tcs g) item.rowIndex item.colIndex =
          some ((reconcileOne tcs item).getD old)
        exact ih g item old hpw.2 hmem' hold
      | some w =>
        show gridGet (reconcile is tcs (setCellAt g i.rowIndex i.colIndex w))
            item.rowIndex item.colIndex = some ((reconcileOne tcs item).getD old)
        apply ih (setCellAt g i.rowIndex i.colIndex w) item old hpw.2 hmem'
        rw [gridGet_setCellAt_ne g i.rowIndex i.colIndex item.rowIndex item.colIndex w hine]
        exact hold

theorem reconcileOne_value_only (tcs : List Cell) (item : SubmittedCell)
    (h : ∀ tc ∈ tcs, tc.row = none) :
    reconcileOne tcs item =
      (tcs.find? (fun c => valueEq c.v item.cell.v)).map
        (fun alt => { alt with row := some item.rowIndex, col := some item.colIndex }) := by
  unfold reconcileOne
  have hfn : tcs.find? (fun c =>
      valueEq c.v item.cell.v ∧ optNatEq c.row (some item.rowIndex) ∧
      optNatEq c.col (some item.colIndex)) = none := by
    apply List.find?_eq_none.mpr
    intro tc htc
    have hr := h tc htc
    simp [hr, optNatEq]
  rw [hfn]
  cases tcs.find? (fun c => valueEq c.v item.cell.v) <;> rfl

theorem markSkips_rowcol (columns protectedColumns : List JStr)
    (glossary : List GlossaryTerm) (rows : List (List Cell))
    (hrc : ∀ row ∈ rows, ∀ c ∈ row, c.row = none ∧ c.col = none) :
    ∀ row ∈ markSkips columns protectedColumns glossary rows,
      ∀ c ∈ row, c.row = none ∧ c.col = none := by
  intro row' hrow' c hc
  unfold markSkips at hrow'
  obtain ⟨row, hrow, rfl⟩ := List.mem_map.mp hrow'
  obtain ⟨p, hp, rfl⟩ := List.mem_map.mp hc
  have hmem : p.2 ∈ row := List.getElem?_mem (List.mem_enum_iff_getElem?.mp hp)
  have hbase := hrc row hrow p.2 hmem
  have hgen : ∀ q : Cell, (q = p.2 ∨ q = { p.2 with skip := true }) →
      q.row = none ∧ q.col = none := by
    intro q hq
    rcases hq with rfl | rfl
    · exact hbase
    · exact hbase
  apply hgen
  dsimp only
  split
  · right; rfl
  · split
    · right; rfl
    · left; rfl

/-- Claim C1: corrected.  The reconciliation step of the per-sheet pipeline
does not key on `(rowIndex, colIndex)`: translated `Cell` objects carry no
`row`/`col` fields, so the positional lookup never succeeds and identity is
established by value only.  For input grids free of position fields: every
cell not submitted for translation is unchanged at its position in the output
grid, and every submitted position receives the first translated cell whose
value equals the submitted value (re-positioned to that position), regardless
of which position that cell originated from — so duplicate text values in
one sheet collapse to the same first match rather than being placed by
position. -/
theorem translateSheet_reconciliation (rows : List (List Cell)) (columns protectedColumns : List JStr)
    (glossary : List GlossaryTerm) (oracle : Oracle)
    (hrc : ∀ row ∈ rows, ∀ cell ∈ row, cell.row = none ∧ cell.col = none) :
    (∀ (r c : Nat) (cell : Cell),
        gridGet (markSkips columns protectedColumns glossary rows) r c = some cell →
        eligibleCell cell = false →
        gridGet (translateSheet rows columns protectedColumns glossary oracle) r c =
          some cell) ∧
    (∀ item ∈ collectCells (markSkips columns protectedColumns glossary rows),
        gridGet (translateSheet rows columns protectedColumns glossary oracle)
            item.rowIndex item.colIndex =
          some (match ((translateCells
              ((collectCells (markSkips columns protectedColumns glossary rows)).map (·.cell))
              oracle).map (·.cell)).find? (fun tc => valueEq tc.v item.cell.v) with
            | some alt => { alt with row := some item.rowIndex, col := some item.colIndex }
            | none => item.cell)) := by
  constructor
  · intro r c cell hcell helig
    have hnotin : ∀ item ∈ collectCells (markSkips columns protectedColumns glossary rows),
        item.rowIndex ≠ r ∨ item.colIndex ≠ c := by
      intro item hitem
      by_contra hcon
      push_neg at hcon
      obtain ⟨hr, hc⟩ := hcon
      obtain ⟨hg, he⟩ := collectCells_mem hitem
      rw [hr, hc, hcell] at hg
      injection hg with hg'
      rw [← hg', helig] at he
      exact Bool.noConfusion he
    show gridGet (reconcile (collectCells (markSkips columns protectedColumns glossary rows))
        ((translateCells
          ((collectCells (markSkips columns protectedColumns glossary rows)).map (·.cell))
          oracle).map (·.cell))
        (markSkips columns protectedColumns glossary rows)) r c = some cell
    rw [reconcile_untouched _ r c _ _ hnotin]
    exact hcell
  · intro item hitem
    obtain ⟨hg, he⟩ := collectCells_mem hitem
    have hcellsrc : ∀ c0 ∈ (collectCells
        (markSkips columns protectedColumns glossary rows)).map (·.cell),
        c0.row = none ∧ c0.col = none := by
      intro c0 hc0
      obtain ⟨it, hit, rfl⟩ := List.mem_map.mp hc0
      obtain ⟨hgit, _⟩ := collectCells_mem hit
      obtain ⟨row', hrow', hmem'⟩ := gridGet_mem hgit
      exact markSkips_rowcol columns protectedColumns glossary rows hrc row' hrow'
        it.cell hmem'
    have hrowtc : ∀ tc ∈ ((translateCells
        ((collectCells (markSkips columns protectedColumns glossary rows)).map (·.cell))
        oracle).map (·.cell)), tc.row = none := by
      intro tc htc
      obtain ⟨w, hw, rfl⟩ := List.mem_map.mp htc
      exact (translateCells_rowcol _ oracle hcellsrc w hw).1
    have hwr := reconcile_written
      ((translateCells
        ((collectCells (markSkips columns protectedColumns glossary rows)).map (·.cell))
        oracle).map (·.cell))
      (collectCells (markSkips columns protectedColumns glossary rows))
      (markSkips columns protectedColumns glossary rows) item item.cell
      (collectCells_pairwise _) hitem hg
    rw [reconcileOne_value_only _ item hrowtc] at hwr
    show gridGet (reconcile (collectCells (markSkips columns protectedColumns glossary rows))
        ((translateCells
          ((collectCells (markSkips columns protectedColumns glossary rows)).map (·.cell))
          oracle).map (·.cell))
        (markSkips columns protectedColumns glossary rows)) item.rowIndex item.colIndex = _
    rw [hwr]
    cases ((translateCells
        ((collectCells (markSkips columns protectedColumns glossary rows)).map (·.cell))
        oracle).map (·.cell)).find? (fun tc => valueEq tc.v item.cell.v) <;> rfl

/-! ## Claim theorems, witnesses and counterexamples -/

theorem translateSheet_reconciliation_witness :
    gridGet (translateSheet [[{ v := .vStr "a".data, t := .s }]] [] [] []
        (fun _ _ => .ok "1. b".data)) 0 0 =
      some { v := .vStr "a".data, t := .s, translated := some "b".data, skip := false, row := some 0, col := some 0 } := by
  have h := (translateSheet_reconciliation [[{ v := .vStr "a".data, t := .s }]] [] [] []
    (fun _ _ => .ok "1. b".data) (by decide)).2
    ⟨{ v := .vStr "a".data, t := .s }, 0, 0⟩ (by decide)
  exact h.trans (by decide)

/-- Counterexample to the original Claim C1: a sheet with the duplicate value
`"x"` at positions `(0,0)` and `(0,1)` and a backend returning the two
translations `t1` and `t2`.  Positional keying would export `t1` at `(0,0)`
and `t2` at `(0,1)`; the pipeline exports `t2` at both positions and loses
`t1` entirely. -/
theorem translateSheet_duplicate_counterexample :
    (gridGet (translateSheet [[{ v := .vStr "x".data, t := .s },
        { v := .vStr "x".data, t := .s }]] [] [] []
        (fun _ _ => .ok "1. t1\n2. t2".data)) 0 0).map effectiveExport =
      some (.vStr "t2".data) ∧
    (gridGet (translateSheet [[{ v := .vStr "x".data, t := .s },
        { v := .vStr "x".data, t := .s }]] [] [] []
        (fun _ _ => .ok "1. t1\n2. t2".data)) 0 1).map effectiveExport =
      some (.vStr "t2".data) := by decide

/-- Claim C2: corrected.  A cell marked skip passes through `translateCells`
unchanged at its position (keeping `translated = none`, so its effective
exported text is its original value) provided no eligible cell of the list
shares its value; the claim's "even when another, eligible cell in the same
list has the same value" fails, because the update loop matches slots by
value. -/
theorem translateCells_skip_passthrough (cells : List Cell) (oracle : Oracle)
    (hrc : ∀ c ∈ cells, c.row = none ∧ c.col = none)
    (j : Nat) (cj : Cell) (hcj : cells[j]? = some cj)
    (_hskip : cj.skip = true) (htrj : cj.translated = none)
    (hne : ∀ e ∈ cells, eligibleCell e = true → e.v ≠ cj.v) :
    (translateCells cells oracle)[j]? = some ⟨some j, cj⟩ ∧
    effectiveExport cj = cj.v := by
  refine ⟨translateCells_skip_core cells oracle hrc j cj hcj hne, ?_⟩
  unfold effectiveExport
  rw [htrj]

theorem translateCells_skip_passthrough_witness :
    (translateCells [{ v := .vStr "s".data, t := .s, skip := true },
        { v := .vStr "x".data, t := .s }] (fun _ _ => .ok "1. tx".data))[0]? =
      some ⟨some 0, { v := .vStr "s".data, t := .s, skip := true }⟩ ∧
    effectiveExport { v := .vStr "s".data, t := .s, skip := true } = .vStr "s".data :=
  translateCells_skip_passthrough
    [{ v := .vStr "s".data, t := .s, skip := true }, { v := .vStr "x".data, t := .s }]
    (fun _ _ => .ok "1. tx".data) (by decide) 0
    { v := .vStr "s".data, t := .s, skip := true } rfl rfl rfl (by decide)

/-- Counterexample to the original Claim C2: a skip-marked cell whose value
`"x"` is shared by an eligible cell: the eligible cell's translation is
written into the skip cell's slot (the update loop's value match hits the
skip slot first), so the skip cell's effective exported text becomes the
translation `"t"`, not its original value. -/
theorem translateCells_skip_duplicate_counterexample :
    ((translateCells [{ v := .vStr "x".data, t := .s, skip := true },
        { v := .vStr "x".data, t := .s }] (fun _ _ => .ok "1. t".data))[0]?).map
      (fun w => effectiveExport w.cell) = some (.vStr "t".data) := by decide

/-- Claim C3: corrected.  Every nonzero bare number whose decimal rendering
contains no glossary term is eligible for translation (`shouldSkipCell`
returns `false`); the claim's "including 0" fails, because the classifier's
`!cell.v` emptiness test treats the number 0 as empty and skips it. -/
theorem shouldSkipCell_numeric_eligible (n : Int) (glossary : List GlossaryTerm)
    (hn : n ≠ 0)
    (hg : ∀ term ∈ glossary,
      jsIncludes (jsLower (intToString n)) (jsLower term.term) = false) :
    shouldSkipCell { v := .vNum n, t := .n } glossary = false :=
  shouldSkipCell_numeric n glossary hn hg

theorem shouldSkipCell_numeric_eligible_witness :
    shouldSkipCell { v := .vNum 42, t := .n } [] = false :=
  shouldSkipCell_numeric_eligible 42 [] (by decide) (by decide)

/-- Counterexample to the original Claim C3: the numeric cell holding 0 is
skipped. -/
theorem shouldSkipCell_zero_counterexample :
    shouldSkipCell { v := .vNum 0, t := .n } [] = true := by decide

/-- Claim C4: confirmed.  Whenever the trimmed original text at index `i` is
a canonical header (i.e. the static lookup `headerMappings` yields a
mapping `m`), `postProcessTranslations` returns exactly `m` at index `i`,
for every backend translation string whatsoever. -/
theorem postProcessTranslations_forces_headers (translations originalTexts : List JStr)
    (i : Nat) (m : JStr) (hi : i < translations.length)
    (hm : headerMappings (jsTrim (originalTexts.getD i [])) = some m) :
    (postProcessTranslations translations originalTexts).getD i [] = m := by
  rw [postProcessTranslations_getD translations originalTexts i hi]
  exact postProcessOne_forces_header (translations.getD i []) (originalTexts.getD i []) m hm

theorem postProcessTranslations_forces_headers_witness :
    (postProcessTranslations ["1. गलत".data] ["Question".data]).getD 0 [] =
      "प्रश्न".data :=
  postProcessTranslations_forces_headers ["1. गलत".data] ["Question".data] 0
    "प्रश्न".data (by decide) (by decide)

/-- Claim C5: refuted — a code bug.  `checkTranslationQuality` is not a pure
function of its four inputs: the module-level `/g` gender-mismatch regex
keeps its `lastIndex` between calls (`.test()` advances it on a hit), so two
consecutive calls on identical arguments return different reports — here the
first call reports the gender-agreement issue and scores 0, while the
immediately following call on the same arguments finds nothing and scores
100. -/
theorem checkTranslationQuality_stateful_behavior :
    ((checkTranslationQuality 0 [] "लड़का करता".data .technical .hi).1.score = 0) ∧
    ((checkTranslationQuality
        (checkTranslationQuality 0 [] "लड़का करता".data .technical .hi).2
        [] "लड़का करता".data .technical .hi).1.score = 100) ∧
    (checkTranslationQuality 0 [] "लड़का करता".data .technical .hi).1 ≠
      (checkTranslationQuality
        (checkTranslationQuality 0 [] "लड़का करता".data .technical .hi).2
        [] "लड़का करता".data .technical .hi).1 := by decide

/-- Claim C6: confirmed.  The quality score is always in `[0, 100]`; an empty
issue list scores exactly 100; prepending any issue never increases the
score (and the score is invariant under permutation of the issue list, so
this is antitonicity in the issue multiset); and with an empty original text
any non-empty issue list scores 0. -/
theorem calculateQualityScore_invariants (issues : List QualityIssue) (len : Nat) :
    (0 ≤ calculateQualityScore issues len ∧ calculateQualityScore issues len ≤ 100) ∧
    (issues = [] → calculateQualityScore issues len = 100) ∧
    (∀ i : QualityIssue,
      calculateQualityScore (i :: issues) len ≤ calculateQualityScore issues len) ∧
    (∀ issues' : List QualityIssue, issues.Perm issues' →
      calculateQualityScore issues' len = calculateQualityScore issues len) ∧
    (len = 0 → issues ≠ [] → calculateQualityScore issues len = 0) :=
  calculateQualityScore_invariants_core issues len

theorem calculateQualityScore_invariants_witness :
    calculateQualityScore [] 5 = 100 := by
  have h := calculateQualityScore_invariants [] 5
  exact h.2.1 rfl

/-- Claim C7: corrected.  `parseTranslationResponse` always returns exactly
`expectedCount` strings and follows the split–clean–take–pad scheme, but with
two differences from the claim's wording: a line is also dropped when it
becomes empty after ordinal stripping (not only when it was empty before),
and the ordinal pattern `\d+\.\s*` requires no space after the dot.  The
equality with `parseTranslationResponseSpec` formalises the amended
procedure. -/
theorem parseTranslationResponse_amended_spec (response : JStr) (expectedCount : Nat) :
    parseTranslationResponse response expectedCount =
      parseTranslationResponseSpec response expectedCount ∧
    (parseTranslationResponse response expectedCount).length = expectedCount :=
  ⟨parseTranslationResponse_eq_spec response expectedCount,
   parseTranslationResponse_length response expectedCount⟩

/-- Counterexample to the original Claim C7: on the response
`"1. A\n2.\n3. C"` with expected count 2 the implementation drops the line
`"2."` (it is empty after stripping `2.`) and returns `["A", "C"]`, while
the claim's procedure keeps it (no space follows the dot, so nothing is
stripped) and returns `["A", "2."]`. -/
theorem parseTranslationResponse_claim_counterexample :
    parseTranslationResponse "1. A\n2.\n3. C".data 2 = ["A".data, "C".data] ∧
    parseTranslationResponseClaim "1. A\n2.\n3. C".data 2 =
      ["A".data, "2.".data] := by decide

/-- Claim C8: corrected.  When the parsed translation line for a batch
position is empty, the final `.translated` value is indeed never an empty
string, but it equals the original text only for non-header originals: for
an original whose trimmed text is a canonical header, the post-processor
forces the canonical target-language mapping instead
(`emptyLineResult` is that mapping for header originals and the original
text otherwise).  Stated for position-field-free, untranslated input cells
with pairwise-distinct values. -/
theorem translateCells_empty_line_fallback (cells : List Cell) (oracle : Oracle)
    (hrc : ∀ c ∈ cells, c.row = none ∧ c.col = none)
    (hd : cells.Pairwise (fun a b => a.v ≠ b.v))
    (htr : ∀ c ∈ cells, c.translated = none) :
    (∀ w ∈ translateCells cells oracle, ∀ t : JStr, w.cell.translated = some t → t ≠ []) ∧
    (∀ (b p j : Nat) (batch : List WCell) (w : WCell) (raw : JStr),
      (chunks50 (cellsToTranslateOf cells))[b]? = some batch →
      batch[p]? = some w → w.ref = some j →
      oracle b (batchTexts batch) = .ok raw →
      (parseTranslationResponse raw (batchTexts batch).length).getD p [] = [] →
      (translateCells cells oracle)[j]?
        = some ⟨none, { w.cell with
            translated := some (emptyLineResult (valueToString w.cell.v)) }⟩) :=
  translateCells_empty_line_core cells oracle hrc hd htr

theorem translateCells_empty_line_fallback_witness :
    (translateCells [{ v := .vStr "Question".data, t := .s }]
        (fun _ _ => .ok []))[0]? =
      some ⟨none, { v := .vStr "Question".data, t := .s, translated := some "प्रश्न".data, skip := false, row := none, col := none }⟩ := by
  have h := (translateCells_empty_line_fallback
      [{ v := .vStr "Question".data, t := .s }] (fun _ _ => .ok [])
      (by decide) (by decide) (by decide)).2
      0 0 0 [⟨some 0, { v := .vStr "Question".data, t := .s }⟩]
      ⟨some 0, { v := .vStr "Question".data, t := .s }⟩ []
      (by decide) (by decide) rfl rfl (by decide)
  exact h.trans (by decide)

/-- Counterexample to the original Claim C8: a lone cell with original text
`"Question"` and a backend returning the empty response (so the parsed line
for position 0 is empty): the cell's final `.translated` is the canonical
header mapping `"प्रश्न"`, not the original text `"Question"`. -/
theorem translateCells_header_empty_counterexample :
    ((translateCells [{ v := .vStr "Question".data, t := .s }]
        (fun _ _ => .ok []))[0]?).map (fun w => w.cell.translated) =
      some (some "प्रश्न".data) ∧ "प्रश्न".data ≠ "Question".data := by decide

/-- Claim C9: confirmed.  A cell whose stringified (trimmed, lowercased)
value contains some glossary term as a substring is always classified skip,
whatever else the value looks like — in the classifier's decision order the
glossary containment test precedes the code-shape test and the numeric
catch-all. -/
theorem shouldSkipCell_glossary_precedence (cell : Cell) (glossary : List GlossaryTerm)
    (term : GlossaryTerm) (hmem : term ∈ glossary)
    (hc : jsIncludes (jsLower (jsTrim (valueToString cell.v))) (jsLower term.term) = true) :
    shouldSkipCell cell glossary = true :=
  shouldSkipCell_glossary cell glossary term hmem hc

theorem shouldSkipCell_glossary_precedence_witness :
    shouldSkipCell { v := .vNum 42, t := .n } [⟨"42".data, []⟩] = true :=
  shouldSkipCell_glossary_precedence { v := .vNum 42, t := .n } [⟨"42".data, []⟩]
    ⟨"42".data, []⟩ (by decide) (by decide)

/-- Claim C10: corrected.  `translateCells` is total, so a backend failure
for one batch never propagates; under pairwise-distinct cell values the
failed batch's cells keep their original objects with no `.translated` value
(and their effective export is the original value), and every position not
referenced by the failed batch is exactly as in the failure-free run.
Without the distinctness proviso the isolation part of the claim fails: a
successful batch's write can land on a failed batch's cell (see the
counterexample). -/
theorem translateCells_batch_failure_isolation (cells : List Cell) (oracle : Oracle) (k : Nat)
    (hrc : ∀ c ∈ cells, c.row = none ∧ c.col = none)
    (hd : cells.Pairwise (fun a b => a.v ≠ b.v))
    (htr : ∀ c ∈ cells, c.translated = none) :
    (translateCells cells (failAt k oracle)).length = cells.length ∧
    (∀ (batch : List WCell) (w : WCell) (j : Nat) (cj : Cell),
      (chunks50 (cellsToTranslateOf cells))[k]? = some batch → w ∈ batch →
      w.ref = some j → cells[j]? = some cj →
      (translateCells cells (failAt k oracle))[j]? = some ⟨some j, cj⟩ ∧
      cj.translated = none ∧ effectiveExport cj = cj.v) ∧
    (∀ j : Nat,
      (∀ (batch : List WCell) (w : WCell),
        (chunks50 (cellsToTranslateOf cells))[k]? = some batch → w ∈ batch →
        w.ref ≠ some j) →
      (translateCells cells (failAt k oracle))[j]? = (translateCells cells oracle)[j]?) :=
  translateCells_failAt_core cells oracle k hrc hd htr

theorem translateCells_batch_failure_isolation_witness :
    (translateCells [{ v := .vStr "x".data, t := .s }]
        (failAt 0 (fun _ _ => .ok "1. t".data)))[0]? =
      some ⟨some 0, { v := .vStr "x".data, t := .s }⟩ ∧
    effectiveExport { v := .vStr "x".data, t := .s } = .vStr "x".data := by
  have h := (translateCells_batch_failure_isolation
      [{ v := .vStr "x".data, t := .s }] (fun _ _ => .ok "1. t".data) 0
      (by decide) (by decide) (by decide)).2.1
      [⟨some 0, { v := .vStr "x".data, t := .s }⟩]
      ⟨some 0, { v := .vStr "x".data, t := .s }⟩ 0 { v := .vStr "x".data, t := .s }
      (by decide) (by decide) rfl rfl
  exact ⟨h.1, h.2.2⟩

/-- Counterexample to the original Claim C10: 51 cells whose first and last
share the value `"x"` (all others distinct), split into batches of 50, with
the first batch's request failing.  The successful second batch consists of
the last cell only, but its write is matched by value and lands on slot 0 —
a cell of the failed batch acquires `.translated = "t"`, while the
successful batch's own cell at slot 50 stays untranslated. -/
theorem translateCells_batch_failure_counterexample :
    (((translateCells (({ v := .vStr "x".data, t := .s } : Cell) ::
        (List.range 49).map (fun i => ({ v := .vStr ('y' :: natDigits i), t := .s } : Cell)) ++
        [{ v := .vStr "x".data, t := .s }])
        (failAt 0 (fun _ _ => .ok "1. t".data)))[0]?).map (fun w => w.cell.translated) =
      some (some "t".data)) ∧
    (((translateCells (({ v := .vStr "x".data, t := .s } : Cell) ::
        (List.range 49).map (fun i => ({ v := .vStr ('y' :: natDigits i), t := .s } : Cell)) ++
        [{ v := .vStr "x".data, t := .s }])
        (failAt 0 (fun _ _ => .ok "1. t".data)))[50]?).map (fun w => w.cell.translated) =
      some none) := by decide
